import Mathlib

/-!
Verification of the core algorithms of the shasper repository against its
natural-language specification.

The development shallowly embeds the relevant Rust source files:

* `src/utils/ssz/src/fixed.rs` — SSZ fixed-length vector codecs (namespace `Ssz`);
* `src/casper/src/reward.rs` — attestation classification and the default
  reward scheme (namespace `Casper`);
* `src/blockchain/src/lib.rs` — the `justified_block_id` accessor
  (namespace `Blockchain`).

Machine integers are embedded as `Nat` (balances, epochs, slots and byte
values never overflow in the statements proved here); fallible operations
return `Except`.  Generic type parameters of the Rust code (validator ids,
epochs, slots, balances) are instantiated at `Nat`, and trait objects
(`ValidatorStore`, `PendingAttestationsStore`, `BlockStore`) become a record
of their observable methods.
-/

namespace Ssz

/-- Decoding errors of the ssz crate that the fixed-vector codecs produce. -/
inductive Error where
  | IncorrectSize
  | InvalidLength
deriving DecidableEq

instance {α β : Type} [DecidableEq α] [DecidableEq β] : DecidableEq (Except α β) :=
  fun a b =>
    match a, b with
    | .ok x, .ok y => if h : x = y then .isTrue (by rw [h]) else .isFalse (by simp [h])
    | .error x, .error y => if h : x = y then .isTrue (by rw [h]) else .isFalse (by simp [h])
    | .ok _, .error _ => .isFalse (by simp)
    | .error _, .ok _ => .isFalse (by simp)

/-- Modelled from the spec: the little-endian encoding of one builtin
unsigned-integer word of `w` bytes.  The element codec used by
`encode_builtin_list` lives in `src/utils/ssz/src/utils.rs`, which is not
part of the extract; the spec fixes it as "concatenated little-endian
words". -/
def toLEBytes : Nat → Nat → List Nat
  | 0, _ => []
  | w+1, n => n % 256 :: toLEBytes w (n / 256)

/-- Modelled from the spec: reading one little-endian word back from its
bytes (inverse direction of `toLEBytes`). -/
def fromLEBytes : List Nat → Nat
  | [] => 0
  | b :: rest => b + 256 * fromLEBytes rest

/-- Modelled from the spec: `encode_builtin_list` (missing
`src/utils/ssz/src/utils.rs`) — a fixed vector of builtin unsigned integers
encodes as the concatenation of the `w`-byte little-endian words of its
elements. -/
def encode_builtin_list (w : Nat) (xs : List Nat) : List Nat :=
  xs.flatMap (toLEBytes w)

/-- Modelled from the spec: `decode_builtin_list` (missing
`src/utils/ssz/src/utils.rs`) — the input is split into consecutive
`w`-byte little-endian words; the element count is derived from the input
length, and an input that stops inside a word is too short to reach a
required byte, which the spec maps to `IncorrectSize`. -/
def decode_builtin_list (w : Nat) (value : List Nat) : Except Error (List Nat) :=
  if w = 0 then .error .IncorrectSize
  else if value.length % w ≠ 0 then .error .IncorrectSize
  else .ok ((List.range (value.length / w)).map
    (fun i => fromLEBytes ((value.drop (i * w)).take w)))

/-- `Decode for FixedVec<$t, L>` from `src/utils/ssz/src/fixed.rs` lines
30–38: decode the builtin list, then fail with `InvalidLength` when the
derived element count differs from `L`. -/
def decode_fixed_uint_vector (w L : Nat) (value : List Nat) : Except Error (List Nat) :=
  match decode_builtin_list w value with
  | .error e => .error e
  | .ok decoded => if decoded.length ≠ L then .error .InvalidLength else .ok decoded

/-- `Encode for FixedVecRef<bool, L>` from `src/utils/ssz/src/fixed.rs`
lines 67–77: allocate `(len + 7) / 8` zero bytes, then for each index `i`
OR bit `i % 8` of byte `i / 8` with the boolean at `i`. -/
def encode_bool_vector (v : List Bool) : List Nat :=
  (List.range v.length).foldl
    (fun bytes i =>
      bytes.set (i / 8) (bytes.getD (i / 8) 0 ||| ((if v.getD i false then 1 else 0) <<< (i % 8))))
    (List.replicate ((v.length + 7) / 8) 0)

/-- The loop of `decode_bool_vector` from `src/utils/ssz/src/fixed.rs`
lines 79–88: for `i` upwards, fail with `IncorrectSize` as soon as byte
`i / 8` is out of range, otherwise push the test of bit `i % 8` of byte
`i / 8`.  The first argument of the recursion counts the remaining
indices. -/
def decode_bool_go (value : List Nat) (i : Nat) : Nat → List Bool → Except Error (List Bool)
  | 0, acc => .ok acc
  | n+1, acc =>
    if value.length ≤ i / 8 then .error .IncorrectSize
    else decode_bool_go value (i+1) n
      (acc ++ [decide (value.getD (i / 8) 0 &&& (1 <<< (i % 8)) ≠ 0)])

/-- `decode_bool_vector` from `src/utils/ssz/src/fixed.rs` lines 79–88. -/
def decode_bool_vector (value : List Nat) (len : Nat) : Except Error (List Bool) :=
  decode_bool_go value 0 len []

/-- `Decode for FixedVec<bool, L>` from `src/utils/ssz/src/fixed.rs` lines
90–95: decode a boolean vector of exactly `L` bits. -/
def decode_fixed_bool_vector (L : Nat) (value : List Nat) : Except Error (List Bool) :=
  decode_bool_vector value L

/-- Sequential fallible decoding of a list of chunks, stopping at the
first error (the behaviour of collecting `Result`s in Rust). -/
def exceptMapList {α β : Type} (f : α → Except Error β) : List α → Except Error (List β)
  | [] => .ok []
  | c :: cs =>
    match f c with
    | .error e => .error e
    | .ok y =>
      match exceptMapList f cs with
      | .error e => .error e
      | .ok ys => .ok (y :: ys)

/-- Modelled from the spec: the known-static-size branch of
`decode_composite` (missing `src/utils/ssz/src/utils.rs`) — fixed vectors
of composite elements with a known size concatenate their encodings, so
decoding splits the input into `s`-byte chunks and decodes each chunk with
the element decoder `f`. -/
def decode_composite_known {α : Type} (s : Nat) (f : List Nat → Except Error α)
    (value : List Nat) : Except Error (List α) :=
  if s = 0 then .error .IncorrectSize
  else if value.length % s ≠ 0 then .error .IncorrectSize
  else exceptMapList f ((List.range (value.length / s)).map
    (fun i => (value.drop (i * s)).take s))

/-- `Decode for FixedVec<T: Composite, L>` from `src/utils/ssz/src/fixed.rs`
lines 122–133: decode the composite list, then accept exactly when the
derived element count equals `L`, otherwise `InvalidLength`. -/
def decode_fixed_composite_vector {α : Type} (s : Nat) (f : List Nat → Except Error α)
    (L : Nat) (value : List Nat) : Except Error (List α) :=
  match decode_composite_known s f value with
  | .error e => .error e
  | .ok ret => if L = ret.length then .ok ret else .error .InvalidLength

end Ssz

namespace Casper

/-- `CasperRewardType` from `src/casper/src/reward.rs` lines 30–39. -/
inductive CasperRewardType where
  | ExpectedSource
  | NoExpectedSource
  | ExpectedTarget
  | NoExpectedTarget
deriving DecidableEq

/-- `BeaconRewardType<Slot>` from `src/casper/src/reward.rs` lines 43–50,
with the generic `Slot` instantiated at `Nat`. -/
inductive BeaconRewardType where
  | ExpectedHead
  | NoExpectedHead
  | InclusionDistance (d : Nat)
deriving DecidableEq

/-- One pending attestation, carrying the observations used by the
classification functions: the `Attestation` and `BeaconAttestation` trait
methods of `src/casper/src/reward.rs`, with ids, epochs and slots
instantiated at `Nat`. -/
structure Attestation where
  validator_id : Nat
  slot : Nat
  source_epoch : Nat
  target_epoch : Nat
  is_slot_canon : Bool
  is_casper_canon : Bool
  inclusion_distance : Nat
deriving DecidableEq

/-- The store interface consumed by the reward functions
(`PendingAttestationsStore` + `BlockStore` + `ValidatorStore` of
`src/casper/src/store.rs`, which is not part of the extract), embedded as a
record of its observable methods. -/
structure RewardStore where
  attestations : List Attestation
  epoch : Nat
  previous_epoch : Nat
  active_validators : Nat → List Nat
  balance : Nat → Nat

/-- `ValidatorStore::total_balance` over a list of validator ids: the sum
of their balances. -/
def total_balance (s : RewardStore) (ids : List Nat) : Nat :=
  (ids.map s.balance).sum

/-- The fields of `CasperContext` that `casper_rewards` reads
(`src/casper/src/casper.rs` is not part of the extract; the context is an
input record here). -/
structure CasperContext where
  epoch : Nat
  previous_justified_epoch : Nat

/-- The attestation loop of `beacon_rewards` (`src/casper/src/reward.rs`
lines 77–89): state is the remaining `no_expected_head_validators` list
and the rewards pushed so far. -/
def beacon_rewards_loop (prev : Nat) (atts : List Attestation) (noHead : List Nat)
    (acc : List (Nat × BeaconRewardType)) : List Nat × List (Nat × BeaconRewardType) :=
  match atts with
  | [] => (noHead, acc)
  | a :: rest =>
    if a.target_epoch = prev then
      let acc₁ := acc ++ [(a.validator_id, BeaconRewardType.InclusionDistance a.inclusion_distance)]
      if a.is_slot_canon then
        beacon_rewards_loop prev rest (noHead.filter (fun w => w ≠ a.validator_id))
          (acc₁ ++ [(a.validator_id, BeaconRewardType.ExpectedHead)])
      else
        beacon_rewards_loop prev rest noHead acc₁
    else
      beacon_rewards_loop prev rest noHead acc

/-- `beacon_rewards` from `src/casper/src/reward.rs` lines 66–96. -/
def beacon_rewards (store : RewardStore) : List (Nat × BeaconRewardType) :=
  let r := beacon_rewards_loop store.previous_epoch store.attestations
    (store.active_validators store.epoch) []
  r.2 ++ r.1.map (fun v => (v, BeaconRewardType.NoExpectedHead))

/-- The attestation loop of `casper_rewards` (`src/casper/src/reward.rs`
lines 113–128): state is the remaining `no_expected_source_validators` and
`no_expected_target_validators` lists and the rewards pushed so far. -/
def casper_rewards_loop (pje : Nat) (atts : List Attestation) (noSource noTarget : List Nat)
    (acc : List (Nat × CasperRewardType)) :
    List Nat × List Nat × List (Nat × CasperRewardType) :=
  match atts with
  | [] => (noSource, noTarget, acc)
  | a :: rest =>
    if a.source_epoch = pje then
      let acc₁ := acc ++ [(a.validator_id, CasperRewardType.ExpectedSource)]
      let noSource₁ := noSource.filter (fun w => w ≠ a.validator_id)
      if a.is_casper_canon then
        casper_rewards_loop pje rest noSource₁ (noTarget.filter (fun w => w ≠ a.validator_id))
          (acc₁ ++ [(a.validator_id, CasperRewardType.ExpectedTarget)])
      else
        casper_rewards_loop pje rest noSource₁ noTarget acc₁
    else
      casper_rewards_loop pje rest noSource noTarget acc

/-- `casper_rewards` from `src/casper/src/reward.rs` lines 100–139. -/
def casper_rewards (context : CasperContext) (store : RewardStore) :
    List (Nat × CasperRewardType) :=
  let r := casper_rewards_loop context.previous_justified_epoch store.attestations
    (store.active_validators context.epoch) (store.active_validators context.epoch) []
  r.2.2 ++ r.1.map (fun v => (v, CasperRewardType.NoExpectedSource))
    ++ r.2.1.map (fun v => (v, CasperRewardType.NoExpectedTarget))

/-- `DefaultSchemeConfig` from `src/casper/src/reward.rs` lines 142–151. -/
structure DefaultSchemeConfig where
  base_reward_quotient : Nat
  inactivity_penalty_quotient : Nat
  includer_reward_quotient : Nat
  min_attestation_inclusion_delay : Nat

/-- `RewardAction` from `src/casper/src/reward.rs` lines 154–159. -/
inductive RewardAction where
  | Add (b : Nat)
  | Sub (b : Nat)
deriving DecidableEq

/-- The `while y < x` loop of `integer_sqrt`
(`src/casper/src/reward.rs` lines 166–169). -/
def integer_sqrt_loop (n x y : Nat) : Nat :=
  if y < x then integer_sqrt_loop n y ((y + n / y) / 2) else x
termination_by x

/-- `integer_sqrt` from `src/casper/src/reward.rs` lines 161–171: Newton
iteration starting from `x = n`, `y = (n + 1) / 2`. -/
def integer_sqrt (n : Nat) : Nat :=
  integer_sqrt_loop n n ((n + 1) / 2)

/-- The `base_reward` closure of `default_scheme_rewards`
(`src/casper/src/reward.rs` lines 191–193), abstracted over the
previous-epoch total balance `ptb`. -/
def base_reward (s : RewardStore) (cfg : DefaultSchemeConfig) (ptb v : Nat) : Nat :=
  total_balance s [v] / (integer_sqrt ptb / cfg.base_reward_quotient) / 5

/-- The `inactivity_penalty` closure of the leak branch
(`src/casper/src/reward.rs` lines 288–290). -/
def inactivity_penalty (s : RewardStore) (cfg : DefaultSchemeConfig) (ptb esf v : Nat) : Nat :=
  base_reward s cfg ptb v + total_balance s [v] * esf / cfg.inactivity_penalty_quotient / 2

/-- The "Beacon expected head" block of the normal branch
(`src/casper/src/reward.rs` lines 198–223): the class balance sums over
validators classified `ExpectedHead` or `NoExpectedHead`; correct heads
gain `base * class_balance / ptb`, incorrect heads lose `base`. -/
def normal_head_actions (s : RewardStore) (cfg : DefaultSchemeConfig) (ptb : Nat)
    (br : List (Nat × BeaconRewardType)) : List (Nat × RewardAction) :=
  let ids := (br.filter (fun p =>
    p.2 = BeaconRewardType.ExpectedHead ∨ p.2 = BeaconRewardType.NoExpectedHead)).map Prod.fst
  let tb := total_balance s ids
  br.flatMap (fun p =>
    (if p.2 = BeaconRewardType.ExpectedHead then
      [(p.1, RewardAction.Add (base_reward s cfg ptb p.1 * tb / ptb))] else []) ++
    (if p.2 = BeaconRewardType.NoExpectedHead then
      [(p.1, RewardAction.Sub (base_reward s cfg ptb p.1))] else []))

/-- The "Beacon inclusion distance" block of the normal branch
(`src/casper/src/reward.rs` lines 226–232). -/
def normal_inclusion_actions (s : RewardStore) (cfg : DefaultSchemeConfig) (ptb : Nat)
    (br : List (Nat × BeaconRewardType)) : List (Nat × RewardAction) :=
  br.flatMap (fun p =>
    match p.2 with
    | BeaconRewardType.InclusionDistance d =>
      [(p.1, RewardAction.Add
        (base_reward s cfg ptb p.1 / cfg.min_attestation_inclusion_delay / d))]
    | _ => [])

/-- The "Casper expected source" block of the normal branch
(`src/casper/src/reward.rs` lines 235–259). -/
def normal_source_actions (s : RewardStore) (cfg : DefaultSchemeConfig) (ptb : Nat)
    (cr : List (Nat × CasperRewardType)) : List (Nat × RewardAction) :=
  let ids := (cr.filter (fun p =>
    p.2 = CasperRewardType.ExpectedSource ∨ p.2 = CasperRewardType.NoExpectedSource)).map Prod.fst
  let tb := total_balance s ids
  cr.flatMap (fun p =>
    (if p.2 = CasperRewardType.ExpectedSource then
      [(p.1, RewardAction.Add (base_reward s cfg ptb p.1 * tb / ptb))] else []) ++
    (if p.2 = CasperRewardType.NoExpectedSource then
      [(p.1, RewardAction.Sub (base_reward s cfg ptb p.1))] else []))

/-- The "Casper expected target" block of the normal branch
(`src/casper/src/reward.rs` lines 262–286). -/
def normal_target_actions (s : RewardStore) (cfg : DefaultSchemeConfig) (ptb : Nat)
    (cr : List (Nat × CasperRewardType)) : List (Nat × RewardAction) :=
  let ids := (cr.filter (fun p =>
    p.2 = CasperRewardType.ExpectedTarget ∨ p.2 = CasperRewardType.NoExpectedTarget)).map Prod.fst
  let tb := total_balance s ids
  cr.flatMap (fun p =>
    (if p.2 = CasperRewardType.ExpectedTarget then
      [(p.1, RewardAction.Add (base_reward s cfg ptb p.1 * tb / ptb))] else []) ++
    (if p.2 = CasperRewardType.NoExpectedTarget then
      [(p.1, RewardAction.Sub (base_reward s cfg ptb p.1))] else []))

/-- The "Beacon expected head" block of the leak branch
(`src/casper/src/reward.rs` lines 293–297). -/
def leak_head_actions (s : RewardStore) (cfg : DefaultSchemeConfig) (ptb esf : Nat)
    (br : List (Nat × BeaconRewardType)) : List (Nat × RewardAction) :=
  br.flatMap (fun p =>
    if p.2 = BeaconRewardType.NoExpectedHead then
      [(p.1, RewardAction.Sub (inactivity_penalty s cfg ptb esf p.1))] else [])

/-- The "Beacon inclusion distance" block of the leak branch
(`src/casper/src/reward.rs` lines 300–304); `Nat` subtraction truncates at
zero, matching the spec's "balances are clamped at zero on subtraction". -/
def leak_inclusion_actions (s : RewardStore) (cfg : DefaultSchemeConfig) (ptb : Nat)
    (br : List (Nat × BeaconRewardType)) : List (Nat × RewardAction) :=
  br.flatMap (fun p =>
    match p.2 with
    | BeaconRewardType.InclusionDistance d =>
      [(p.1, RewardAction.Sub (base_reward s cfg ptb p.1 -
        base_reward s cfg ptb p.1 * cfg.min_attestation_inclusion_delay / d))]
    | _ => [])

/-- The Casper block of the leak branch (`src/casper/src/reward.rs` lines
306–316): both conditions test `NoExpectedSource`, exactly as in the
source. -/
def leak_casper_actions (s : RewardStore) (cfg : DefaultSchemeConfig) (ptb esf : Nat)
    (cr : List (Nat × CasperRewardType)) : List (Nat × RewardAction) :=
  cr.flatMap (fun p =>
    (if p.2 = CasperRewardType.NoExpectedSource then
      [(p.1, RewardAction.Sub (base_reward s cfg ptb p.1))] else []) ++
    (if p.2 = CasperRewardType.NoExpectedSource then
      [(p.1, RewardAction.Sub (inactivity_penalty s cfg ptb esf p.1))] else []))

/-- The "Punish all active validators" block of the leak branch
(`src/casper/src/reward.rs` lines 319–321). -/
def leak_punish_actions (s : RewardStore) (cfg : DefaultSchemeConfig) (ptb esf : Nat)
    (pav : List Nat) : List (Nat × RewardAction) :=
  pav.map (fun v =>
    (v, RewardAction.Sub (inactivity_penalty s cfg ptb esf v * 2 + base_reward s cfg ptb v)))

/-- `default_scheme_rewards` from `src/casper/src/reward.rs` lines
174–325, assembled from the block functions above in the order the source
pushes them. -/
def default_scheme_rewards (s : RewardStore) (br : List (Nat × BeaconRewardType))
    (cr : List (Nat × CasperRewardType)) (esf : Nat) (cfg : DefaultSchemeConfig) :
    List (Nat × RewardAction) :=
  let pav := s.active_validators s.previous_epoch
  let ptb := total_balance s pav
  if esf ≤ 4 then
    normal_head_actions s cfg ptb br ++ normal_inclusion_actions s cfg ptb br ++
    normal_source_actions s cfg ptb cr ++ normal_target_actions s cfg ptb cr
  else
    leak_head_actions s cfg ptb esf br ++ leak_inclusion_actions s cfg ptb br ++
    leak_casper_actions s cfg ptb esf cr ++ leak_punish_actions s cfg ptb esf pav

/-- The right-hand operands of every division performed while computing
`default_scheme_rewards` (including those inside the `base_reward` and
`inactivity_penalty` closures): the two quotients of `base_reward`, the
quotient `integer_sqrt ptb / base_reward_quotient` itself, and per branch
the divisors of the blocks that run — `ptb` and the inclusion-distance
divisors in normal mode, the inactivity divisors in leak mode. -/
def default_scheme_divisors (s : RewardStore) (br : List (Nat × BeaconRewardType))
    (esf : Nat) (cfg : DefaultSchemeConfig) : List Nat :=
  let pav := s.active_validators s.previous_epoch
  let ptb := total_balance s pav
  let distances := br.filterMap (fun p =>
    match p.2 with
    | BeaconRewardType.InclusionDistance d => some d
    | _ => none)
  let fromBase := [cfg.base_reward_quotient, integer_sqrt ptb / cfg.base_reward_quotient, 5]
  if esf ≤ 4 then
    fromBase ++ [ptb, cfg.min_attestation_inclusion_delay] ++ distances
  else
    fromBase ++ [cfg.inactivity_penalty_quotient, 2] ++ distances

/-- Sum of the amounts of the `Sub` actions recorded for validator `v`. -/
def sub_total_for (v : Nat) (actions : List (Nat × RewardAction)) : Nat :=
  (actions.filterMap (fun p =>
    match p with
    | (w, RewardAction.Sub x) => if w = v then some x else none
    | _ => none)).sum

end Casper

namespace Blockchain

/-- The 32-byte zero hash `H256::default()`. -/
def zeroHash : List Nat := List.replicate 32 0

/-- A checkpoint `(epoch, root)`, the root being 32 bytes. -/
structure Checkpoint where
  epoch : Nat
  root : List Nat
deriving DecidableEq

/-- The part of `BeaconState` that `justified_block_id` reads
(`state.current_justified_checkpoint`; the full `BeaconState` lives in the
`beacon` crate, outside the extract). -/
structure StateModel where
  current_justified_checkpoint : Checkpoint
deriving DecidableEq

/-- The error type of `src/blockchain/src/lib.rs` (`Error::Beacon`). -/
inductive Error where
  | Beacon
deriving DecidableEq

/-- `justified_block_id` from `src/blockchain/src/lib.rs` lines 205–215:
`Ok(None)` when the current justified checkpoint root is the zero hash,
`Ok(Some(root))` otherwise. -/
def justified_block_id (state : StateModel) : Except Error (Option (List Nat)) :=
  let justified_root := state.current_justified_checkpoint.root
  if justified_root = zeroHash then Except.ok none
  else Except.ok (some justified_root)

end Blockchain

namespace Ssz

/-- A `w`-byte little-endian word occupies exactly `w` bytes. -/
theorem toLEBytes_length (w : Nat) : ∀ n, (toLEBytes w n).length = w := by
  induction w with
  | zero => intro n; rfl
  | succ w ih => intro n; simp [toLEBytes, ih]

/-- Reading a little-endian word back recovers the value modulo `256^w`. -/
theorem fromLEBytes_toLEBytes (w : Nat) : ∀ n, fromLEBytes (toLEBytes w n) = n % 256 ^ w := by
  induction w with
  | zero => intro n; simp [toLEBytes, fromLEBytes, Nat.mod_one]
  | succ w ih =>
    intro n
    rw [toLEBytes, fromLEBytes, ih (n / 256), pow_succ']
    exact (Nat.mod_mul).symm

/-- The builtin-list encoding of `xs` has `w * xs.length` bytes. -/
theorem encode_builtin_list_length (w : Nat) (xs : List Nat) :
    (encode_builtin_list w xs).length = w * xs.length := by
  induction xs with
  | nil => simp [encode_builtin_list]
  | cons x rest ih =>
    simp only [encode_builtin_list, List.flatMap_cons, List.length_append,
      toLEBytes_length] at ih ⊢
    rw [ih]
    simp [List.length_cons]
    ring

/-- The `i`-th `w`-byte chunk of the builtin-list encoding is the encoding
of the `i`-th element. -/
theorem encode_chunk (w : Nat) (xs : List Nat) :
    ∀ i, i < xs.length →
      ((encode_builtin_list w xs).drop (i * w)).take w = toLEBytes w (xs.getD i 0) := by
  induction xs with
  | nil => intro i h; simp at h
  | cons x rest ih =>
    intro i h
    cases i with
    | zero =>
      simp only [encode_builtin_list, List.flatMap_cons, Nat.zero_mul, List.drop_zero,
        List.getD_cons_zero]
      rw [List.take_left' (toLEBytes_length w x)]
    | succ i =>
      have hmul : (i + 1) * w = w + i * w := by ring
      simp only [encode_builtin_list, List.flatMap_cons, List.getD_cons_succ, hmul]
      rw [← List.drop_drop, List.drop_left' (toLEBytes_length w x)]
      exact ih i (by simpa using h)

/-- Decoding the builtin-list encoding of in-range values recovers them. -/
theorem decode_encode_builtin (w : Nat) (hw : 1 ≤ w) (xs : List Nat)
    (hbound : ∀ x ∈ xs, x < 256 ^ w) :
    decode_builtin_list w (encode_builtin_list w xs) = Except.ok xs := by
  have hw0 : ¬ w = 0 := by omega
  have h1 : w * xs.length % w = 0 := Nat.mul_mod_right w xs.length
  have h2 : w * xs.length / w = xs.length := Nat.mul_div_cancel_left xs.length (by omega)
  simp only [decode_builtin_list, encode_builtin_list_length, h1, h2, hw0, ne_eq,
    not_true_eq_false, not_false_eq_true, if_false, ite_false]
  congr 1
  apply List.ext_getElem
  · simp
  intro i ha hb
  simp only [List.getElem_map, List.getElem_range]
  rw [encode_chunk w xs i (by simpa using ha), fromLEBytes_toLEBytes]
  have hg : xs.getD i 0 = xs[i] := by
    simp [List.getD, List.getElem?_eq_getElem, hb]
  rw [hg, Nat.mod_eq_of_lt (hbound _ (List.getElem_mem hb))]

/-- A builtin fixed vector decoded from a well-formed byte string with the
wrong derived element count fails with `InvalidLength`. -/
theorem decode_fixed_uint_invalid (w L k : Nat) (hw : 1 ≤ w) (value : List Nat)
    (hlen : value.length = w * k) (hk : k ≠ L) :
    decode_fixed_uint_vector w L value = Except.error Error.InvalidLength := by
  have hw0 : ¬ w = 0 := by omega
  have h1 : value.length % w = 0 := by rw [hlen]; exact Nat.mul_mod_right w k
  have h2 : value.length / w = k := by rw [hlen]; exact Nat.mul_div_cancel_left k (by omega)
  simp [decode_fixed_uint_vector, decode_builtin_list, h1, h2, hw0, hk]

/-- A totally succeeding chunk decoder maps any chunk list to a success of
the same length. -/
theorem exceptMapList_ok {α β : Type} (f : α → Except Error β) (l : List α)
    (h : ∀ c ∈ l, ∃ y, f c = Except.ok y) :
    ∃ ys, exceptMapList f l = Except.ok ys ∧ ys.length = l.length := by
  induction l with
  | nil => exact ⟨[], rfl, rfl⟩
  | cons c cs ih =>
    obtain ⟨y, hy⟩ := h c (List.mem_cons_self c cs)
    obtain ⟨ys, hys, hlen⟩ := ih (fun b hb => h b (List.mem_cons_of_mem c hb))
    refine ⟨y :: ys, ?_, by simp [hlen]⟩
    simp only [exceptMapList, hy, hys]

/-- A composite fixed vector decoded from a well-formed byte string with
the wrong derived element count fails with `InvalidLength`. -/
theorem decode_fixed_composite_invalid {α : Type} (s L k : Nat) (hs : 1 ≤ s)
    (f : List Nat → Except Error α) (hf : ∀ c, ∃ y, f c = Except.ok y)
    (value : List Nat) (hlen : value.length = s * k) (hk : k ≠ L) :
    decode_fixed_composite_vector s f L value = Except.error Error.InvalidLength := by
  have hs0 : ¬ s = 0 := by omega
  have h1 : value.length % s = 0 := by rw [hlen]; exact Nat.mul_mod_right s k
  have h2 : value.length / s = k := by rw [hlen]; exact Nat.mul_div_cancel_left k (by omega)
  obtain ⟨ys, hys, hyslen⟩ := exceptMapList_ok f
    ((List.range k).map fun i => (value.drop (i * s)).take s) (fun c _ => hf c)
  have hlenk : ys.length = k := by simpa using hyslen
  have hLk : ¬ L = k := fun h => hk h.symm
  simp only [decode_fixed_composite_vector, decode_composite_known, h1, h2, hs0, ne_eq,
    not_true_eq_false, not_false_eq_true, if_false, ite_false, hys, hlenk]
  simp [hLk]

/-- Reading the written position of a `set`. -/
theorem getD_set_self (l : List Nat) (i a : Nat) (h : i < l.length) :
    (l.set i a).getD i 0 = a := by
  simp [List.getD, List.getElem?_set, h]

/-- Reading any other position of a `set`. -/
theorem getD_set_ne (l : List Nat) (i j a : Nat) (h : i ≠ j) :
    (l.set i a).getD j 0 = l.getD j 0 := by
  simp [List.getD, List.getElem?_set, h]

/-- Any position of an all-zero buffer reads zero. -/
theorem getD_replicate_zero (b j : Nat) : (List.replicate b 0).getD j 0 = 0 := by
  rcases Nat.lt_or_ge j b with h | h
  · simp [List.getD, List.getElem?_replicate, h]
  · simp [List.getD, List.getElem?_eq_none, h]

/-- Invariant of the bit-packing loop of `Encode for FixedVecRef<bool, L>`:
after the first `n` indices have been OR-ed in, the buffer still has
`(len + 7) / 8` bytes and bit `k` of byte `j` is set exactly for the
already-processed true bits. -/
theorem encode_bool_loop_invariant (v : List Bool) (n : Nat) (hn : n ≤ v.length) :
    ((List.range n).foldl
      (fun bytes i =>
        bytes.set (i / 8)
          (bytes.getD (i / 8) 0 ||| ((if v.getD i false then 1 else 0) <<< (i % 8))))
      (List.replicate ((v.length + 7) / 8) 0)).length = (v.length + 7) / 8 ∧
    ∀ j k, k < 8 →
      (((List.range n).foldl
        (fun bytes i =>
          bytes.set (i / 8)
            (bytes.getD (i / 8) 0 ||| ((if v.getD i false then 1 else 0) <<< (i % 8))))
        (List.replicate ((v.length + 7) / 8) 0)).getD j 0).testBit k =
        (decide (8 * j + k < n) && v.getD (8 * j + k) false) := by
  induction n with
  | zero =>
    refine ⟨by simp, ?_⟩
    intro j k hk
    simp only [List.range_zero, List.foldl_nil]
    rw [getD_replicate_zero]
    simp
  | succ n ih =>
    obtain ⟨ihlen, ihbit⟩ := ih (by omega)
    rw [List.range_succ, List.foldl_append, List.foldl_cons, List.foldl_nil]
    set prev := (List.range n).foldl
      (fun bytes i =>
        bytes.set (i / 8)
          (bytes.getD (i / 8) 0 ||| ((if v.getD i false then 1 else 0) <<< (i % 8))))
      (List.replicate ((v.length + 7) / 8) 0) with hprev
    have hidx : n / 8 < prev.length := by
      rw [ihlen]
      omega
    constructor
    · rw [List.length_set, ihlen]
    intro j k hk
    by_cases hj : n / 8 = j
    · subst hj
      rw [getD_set_self prev _ _ hidx, Nat.testBit_lor, ihbit _ _ hk]
      by_cases hkn : n % 8 = k
      · have hn8 : 8 * (n / 8) + k = n := by omega
        rw [hn8]
        cases hvb : v.getD n false
        · rw [if_neg (by simp [hvb]), Nat.zero_shiftLeft]
          simp
        · rw [if_pos (by simp [hvb]), Nat.shiftLeft_eq, one_mul, Nat.testBit_two_pow]
          simp [hkn]
      · have hiff : (8 * (n / 8) + k < n + 1) ↔ (8 * (n / 8) + k < n) := by omega
        have hbit : ((if v.getD n false then 1 else 0) <<< (n % 8)).testBit k = false := by
          cases hvb : v.getD n false
          · rw [if_neg (by simp [hvb]), Nat.zero_shiftLeft]
            simp
          · rw [if_pos (by simp [hvb]), Nat.shiftLeft_eq, one_mul, Nat.testBit_two_pow]
            simp [hkn]
        rw [hbit]
        simp [hiff]
    · rw [getD_set_ne prev _ _ _ hj, ihbit _ _ hk]
      have hiff : (8 * j + k < n + 1) ↔ (8 * j + k < n) := by omega
      simp [hiff]

/-- The packed encoding of a boolean vector has `(len + 7) / 8` bytes. -/
theorem encode_bool_vector_length (v : List Bool) :
    (encode_bool_vector v).length = (v.length + 7) / 8 :=
  (encode_bool_loop_invariant v v.length le_rfl).1

/-- Bit `k` of byte `j` of the packed encoding is the corresponding
element of the vector, false beyond its length. -/
theorem encode_bool_vector_testBit (v : List Bool) (j k : Nat) (hk : k < 8) :
    ((encode_bool_vector v).getD j 0).testBit k =
      (decide (8 * j + k < v.length) && v.getD (8 * j + k) false) :=
  (encode_bool_loop_invariant v v.length le_rfl).2 j k hk

/-- Successful run of the bit-reading loop: with every needed byte in
range, it returns the accumulated prefix followed by the bit tests. -/
theorem decode_bool_go_ok (value : List Nat) :
    ∀ (n i : Nat) (acc : List Bool), (∀ m, i ≤ m → m < i + n → m / 8 < value.length) →
      decode_bool_go value i n acc =
        Except.ok (acc ++ (List.range' i n).map
          (fun m => decide (value.getD (m / 8) 0 &&& (1 <<< (m % 8)) ≠ 0))) := by
  intro n
  induction n with
  | zero =>
    intro i acc h
    simp [decode_bool_go]
  | succ n ih =>
    intro i acc h
    have hi : i / 8 < value.length := h i le_rfl (by omega)
    rw [decode_bool_go, if_neg (by omega)]
    rw [ih (i + 1) _ (fun m h1 h2 => h m (by omega) (by omega))]
    rw [List.range'_succ]
    simp

/-- Failing run of the bit-reading loop: if some required index is past
the last byte, the result is `IncorrectSize`. -/
theorem decode_bool_go_error (value : List Nat) :
    ∀ (n i : Nat) (acc : List Bool), i ≤ 8 * value.length → 8 * value.length < i + n →
      decode_bool_go value i n acc = Except.error Error.IncorrectSize := by
  intro n
  induction n with
  | zero =>
    intro i acc h1 h2
    omega
  | succ n ih =>
    intro i acc h1 h2
    rw [decode_bool_go]
    by_cases hc : value.length ≤ i / 8
    · rw [if_pos hc]
    · rw [if_neg hc]
      exact ih (i + 1) _ (by omega) (by omega)

/-- The raw bit test used by `decode_bool_vector` agrees with
`Nat.testBit`. -/
theorem decide_and_shift_eq_testBit (x m : Nat) :
    decide (x &&& (1 <<< m) ≠ 0) = x.testBit m := by
  rw [Nat.shiftLeft_eq, one_mul, Nat.and_two_pow]
  cases h : x.testBit m <;> simp [h, Nat.pos_iff_ne_zero, Nat.pos_pow_of_pos]

/-- `decode_bool_vector` on a long-enough input returns the LSB-first bits
of the bytes. -/
theorem decode_bool_vector_ok (value : List Nat) (len : Nat) (h : len ≤ 8 * value.length) :
    decode_bool_vector value len =
      Except.ok ((List.range len).map
        (fun m => (value.getD (m / 8) 0).testBit (m % 8))) := by
  rw [decode_bool_vector, decode_bool_go_ok value len 0 [] (fun m h1 h2 => by omega)]
  rw [List.range_eq_range']
  simp only [List.nil_append]
  congr 1
  exact List.map_congr_left (fun m _ => decide_and_shift_eq_testBit _ _)

/-- Round trip for boolean vectors: decoding the packed encoding at the
original length recovers the vector. -/
theorem decode_encode_bool (v : List Bool) :
    decode_fixed_bool_vector v.length (encode_bool_vector v) = Except.ok v := by
  rw [decode_fixed_bool_vector, decode_bool_vector_ok _ _ (by rw [encode_bool_vector_length]; omega)]
  congr 1
  apply List.ext_getElem
  · simp
  intro i ha hb
  simp only [List.getElem_map, List.getElem_range]
  rw [encode_bool_vector_testBit v (i / 8) (i % 8) (by omega)]
  have hi : 8 * (i / 8) + i % 8 = i := by omega
  have hlen : i < v.length := by simpa using hb
  rw [hi]
  simp [List.getD, List.getElem?_eq_getElem, hlen]

end Ssz

namespace Casper

/-- One Newton step from any positive `x` stays at or above the integer
square root. -/
theorem sqrt_le_newton_step (n x : Nat) (hx : 1 ≤ x) :
    Nat.sqrt n * 2 ≤ x + n / x := by
  set s := Nat.sqrt n with hs
  by_cases hbig : s * 2 ≤ x
  · exact le_trans hbig (Nat.le_add_right x (n / x))
  · have hxlt : x < 2 * s := by omega
    have hsub : (2 * s - x) * x ≤ s * s := by
      zify [le_of_lt hxlt]
      nlinarith [sq_nonneg ((s : ℤ) - x)]
    have hdiv : 2 * s - x ≤ n / x := by
      rw [Nat.le_div_iff_mul_le (by omega)]
      exact le_trans hsub (Nat.sqrt_le n)
    omega

/-- If a Newton step does not decrease a positive `x`, then `x` is at most
the integer square root. -/
theorem newton_exit (n x : Nat) (hx : 1 ≤ x) (h : x ≤ (x + n / x) / 2) :
    x * x ≤ n := by
  have h2 : x * 2 ≤ x + n / x := (Nat.le_div_iff_mul_le (by omega)).mp h
  have hdx : x ≤ n / x := by omega
  exact (Nat.le_div_iff_mul_le (by omega)).mp hdx

/-- The `while` loop of `integer_sqrt`, entered at any upper bound `x` of
the integer square root with `y` the Newton step of `x`, returns
`Nat.sqrt n`. -/
theorem integer_sqrt_loop_eq_sqrt (n : Nat) (hn : 1 ≤ n) (x : Nat) :
    Nat.sqrt n ≤ x → integer_sqrt_loop n x ((x + n / x) / 2) = Nat.sqrt n := by
  induction x using Nat.strong_induction_on with
  | _ x ih =>
    intro hx
    have hs1 : 1 ≤ Nat.sqrt n := Nat.sqrt_pos.mpr hn
    have hx1 : 1 ≤ x := le_trans hs1 hx
    have hy : Nat.sqrt n ≤ (x + n / x) / 2 := by
      rw [Nat.le_div_iff_mul_le (by omega)]
      exact sqrt_le_newton_step n x hx1
    rw [integer_sqrt_loop]
    split
    · next hlt => exact ih _ hlt hy
    · next hge =>
      have hxy : x ≤ (x + n / x) / 2 := Nat.le_of_not_lt hge
      exact le_antisymm (Nat.le_sqrt.mpr (newton_exit n x hx1 hxy)) hx

/-- The source's `integer_sqrt` agrees with the mathematical integer
square root. -/
theorem integer_sqrt_eq_sqrt (n : Nat) : integer_sqrt n = Nat.sqrt n := by
  rcases Nat.eq_zero_or_pos n with h0 | h1
  · subst h0
    rw [integer_sqrt, integer_sqrt_loop]
    simp
  · have hdiv : (n + 1) / 2 = (n + n / n) / 2 := by rw [Nat.div_self h1]
    rw [integer_sqrt, hdiv]
    exact integer_sqrt_loop_eq_sqrt n h1 n (Nat.sqrt_le_self n)

end Casper

/-- C7: `integer_sqrt` terminates and returns the greatest `m` with
`m * m ≤ n`, and the `base_reward` closure of `default_scheme_rewards`
equals `balance(v) / (integer_sqrt(B_tot) / base_reward_quotient) / 5`
where `B_tot` is the previous-epoch total active balance. -/
theorem C7_integer_sqrt_floor_and_base_reward (n : Nat) (s : Casper.RewardStore)
    (cfg : Casper.DefaultSchemeConfig) (v : Nat) :
    (Casper.integer_sqrt n * Casper.integer_sqrt n ≤ n ∧
      (∀ m, m * m ≤ n → m ≤ Casper.integer_sqrt n)) ∧
    Casper.base_reward s cfg
        (Casper.total_balance s (s.active_validators s.previous_epoch)) v =
      s.balance v /
        (Casper.integer_sqrt
          (Casper.total_balance s (s.active_validators s.previous_epoch)) /
            cfg.base_reward_quotient) / 5 := by
  refine ⟨⟨?_, ?_⟩, ?_⟩
  · rw [Casper.integer_sqrt_eq_sqrt]
    exact Nat.sqrt_le n
  · intro m hm
    rw [Casper.integer_sqrt_eq_sqrt]
    exact Nat.le_sqrt.mpr hm
  · simp [Casper.base_reward, Casper.total_balance]

/-- Witness for C7 at `n = 10`, `m = 3`, and a one-validator store. -/
theorem C7_integer_sqrt_floor_and_base_reward_witness :
    Casper.integer_sqrt 10 * Casper.integer_sqrt 10 ≤ 10 ∧ 3 ≤ Casper.integer_sqrt 10 :=
  ⟨(C7_integer_sqrt_floor_and_base_reward 10 ⟨[], 0, 0, fun _ => [], fun _ => 0⟩
      ⟨1, 1, 1, 1⟩ 0).1.1,
   (C7_integer_sqrt_floor_and_base_reward 10 ⟨[], 0, 0, fun _ => [], fun _ => 0⟩
      ⟨1, 1, 1, 1⟩ 0).1.2 3 (by norm_num)⟩

/-- C4: SSZ round trip for fixed vectors — decoding the encoding of a
fixed vector of builtin unsigned integers (elements in range, length `L`)
or of booleans (length `L`) succeeds and returns the original value, and
both encoders are deterministic functions of the value. -/
theorem C4_fixed_vector_roundtrip :
    (∀ (w L : Nat) (xs : List Nat), 1 ≤ w → xs.length = L → (∀ x ∈ xs, x < 256 ^ w) →
      Ssz.decode_fixed_uint_vector w L (Ssz.encode_builtin_list w xs) = Except.ok xs) ∧
    (∀ (L : Nat) (v : List Bool), v.length = L →
      Ssz.decode_fixed_bool_vector L (Ssz.encode_bool_vector v) = Except.ok v) ∧
    (∀ (w : Nat) (xs ys : List Nat), xs = ys →
      Ssz.encode_builtin_list w xs = Ssz.encode_builtin_list w ys) ∧
    (∀ (v u : List Bool), v = u → Ssz.encode_bool_vector v = Ssz.encode_bool_vector u) := by
  refine ⟨?_, ?_, ?_, ?_⟩
  · intro w L xs hw hlen hbound
    subst hlen
    simp [Ssz.decode_fixed_uint_vector, Ssz.decode_encode_builtin w hw xs hbound]
  · intro L v hlen
    subst hlen
    exact Ssz.decode_encode_bool v
  · intro w xs ys h
    rw [h]
  · intro v u h
    rw [h]

/-- Witness for C4 at `w = 2`, `L = 2`, `xs = [3, 515]` and at the boolean
vector `[true, false, true]`. -/
theorem C4_fixed_vector_roundtrip_witness :
    Ssz.decode_fixed_uint_vector 2 2 (Ssz.encode_builtin_list 2 [3, 515]) =
      Except.ok [3, 515] ∧
    Ssz.decode_fixed_bool_vector 3 (Ssz.encode_bool_vector [true, false, true]) =
      Except.ok [true, false, true] :=
  ⟨C4_fixed_vector_roundtrip.1 2 2 [3, 515] (by norm_num) rfl (by decide),
   C4_fixed_vector_roundtrip.2.1 3 [true, false, true] rfl⟩

/-- C5: a builtin fixed vector decoded from a well-formed byte string
whose derived element count differs from `L` fails with exactly
`InvalidLength`; a boolean fixed vector decoded from fewer than
`ceil(L / 8)` bytes fails with exactly `IncorrectSize`; and a composite
fixed vector whose derived element count differs from `L` fails with
exactly `InvalidLength`. -/
theorem C5_fixed_vector_decode_errors :
    (∀ (w L k : Nat) (value : List Nat), 1 ≤ w → value.length = w * k → k ≠ L →
      Ssz.decode_fixed_uint_vector w L value = Except.error Ssz.Error.InvalidLength) ∧
    (∀ (L : Nat) (value : List Nat), value.length < (L + 7) / 8 →
      Ssz.decode_fixed_bool_vector L value = Except.error Ssz.Error.IncorrectSize) ∧
    (∀ (α : Type) (s L k : Nat) (f : List Nat → Except Ssz.Error α) (value : List Nat),
      1 ≤ s → (∀ c, ∃ y, f c = Except.ok y) → value.length = s * k → k ≠ L →
      Ssz.decode_fixed_composite_vector s f L value =
        Except.error Ssz.Error.InvalidLength) := by
  refine ⟨?_, ?_, ?_⟩
  · intro w L k value hw hlen hk
    exact Ssz.decode_fixed_uint_invalid w L k hw value hlen hk
  · intro L value hlen
    rw [Ssz.decode_fixed_bool_vector, Ssz.decode_bool_vector]
    exact Ssz.decode_bool_go_error value L 0 [] (by omega) (by omega)
  · intro α s L k f value hs hf hlen hk
    exact Ssz.decode_fixed_composite_invalid s L k hs f hf value hlen hk

/-- Witness for C5: three elements where two are expected, one byte where
two are needed, and two composite chunks where three are expected. -/
theorem C5_fixed_vector_decode_errors_witness :
    Ssz.decode_fixed_uint_vector 2 2 [1, 0, 2, 0, 3, 0] =
      Except.error Ssz.Error.InvalidLength ∧
    Ssz.decode_fixed_bool_vector 9 [255] = Except.error Ssz.Error.IncorrectSize ∧
    Ssz.decode_fixed_composite_vector 4 (fun c => Except.ok c) 3 [1, 2, 3, 4, 5, 6, 7, 8] =
      Except.error Ssz.Error.InvalidLength :=
  ⟨C5_fixed_vector_decode_errors.1 2 2 3 [1, 0, 2, 0, 3, 0] (by norm_num) rfl (by norm_num),
   C5_fixed_vector_decode_errors.2.1 9 [255] (by norm_num),
   C5_fixed_vector_decode_errors.2.2 (List Nat) 4 3 2 (fun c => Except.ok c)
     [1, 2, 3, 4, 5, 6, 7, 8] (by norm_num) (fun c => ⟨c, rfl⟩) rfl (by norm_num)⟩

/-- C6: the boolean-vector encoding packs LSB-first — it produces exactly
`ceil(n / 8)` bytes, bit `i % 8` of byte `i / 8` is element `i` for
`i < n`, every packed bit at position `n` or beyond is zero, and
`decode_bool_vector` reads bits back under the same layout. -/
theorem C6_bool_vector_bit_layout :
    (∀ v : List Bool, (Ssz.encode_bool_vector v).length = (v.length + 7) / 8) ∧
    (∀ (v : List Bool) (i : Nat), i < v.length →
      ((Ssz.encode_bool_vector v).getD (i / 8) 0).testBit (i % 8) = v.getD i false) ∧
    (∀ (v : List Bool) (i : Nat), v.length ≤ i → i < 8 * ((v.length + 7) / 8) →
      ((Ssz.encode_bool_vector v).getD (i / 8) 0).testBit (i % 8) = false) ∧
    (∀ (value : List Nat) (len : Nat), len ≤ 8 * value.length →
      Ssz.decode_bool_vector value len =
        Except.ok ((List.range len).map
          (fun i => (value.getD (i / 8) 0).testBit (i % 8)))) := by
  refine ⟨Ssz.encode_bool_vector_length, ?_, ?_, Ssz.decode_bool_vector_ok⟩
  · intro v i hi
    rw [Ssz.encode_bool_vector_testBit v (i / 8) (i % 8) (by omega)]
    have h8 : 8 * (i / 8) + i % 8 = i := by omega
    rw [h8]
    simp [hi]
  · intro v i hi hlt
    rw [Ssz.encode_bool_vector_testBit v (i / 8) (i % 8) (by omega)]
    have h8 : 8 * (i / 8) + i % 8 = i := by omega
    rw [h8]
    simp [Nat.not_lt.mpr hi]

/-- Witness for C6 at the vector `[true, false, true]`, whose single
packed byte is `0b101`: bit 2 reads back true and padding bit 5 is
zero. -/
theorem C6_bool_vector_bit_layout_witness :
    ((Ssz.encode_bool_vector [true, false, true]).getD 0 0).testBit 2 = true ∧
    ((Ssz.encode_bool_vector [true, false, true]).getD 0 0).testBit 5 = false := by
  constructor
  · have h := C6_bool_vector_bit_layout.2.1 [true, false, true] 2 (by norm_num)
    simpa using h
  · have h := C6_bool_vector_bit_layout.2.2.1 [true, false, true] 5 (by norm_num) (by norm_num)
    simpa using h

namespace Casper

/-- A `NoExpectedSource` classification contributes both the base-reward
debit and the inactivity-penalty debit to the leak-branch Casper block. -/
theorem mem_leak_casper_of_noSource (s : RewardStore) (cfg : DefaultSchemeConfig)
    (ptb esf v : Nat) (cr : List (Nat × CasperRewardType))
    (h : (v, CasperRewardType.NoExpectedSource) ∈ cr) :
    (v, RewardAction.Sub (base_reward s cfg ptb v)) ∈ leak_casper_actions s cfg ptb esf cr ∧
    (v, RewardAction.Sub (inactivity_penalty s cfg ptb esf v)) ∈
      leak_casper_actions s cfg ptb esf cr := by
  constructor <;>
    exact List.mem_flatMap.mpr ⟨(v, CasperRewardType.NoExpectedSource), h, by simp⟩

/-- Entries other than `NoExpectedSource` contribute nothing to the
leak-branch Casper block: it only looks at `NoExpectedSource`
classifications (both of its conditions test `NoExpectedSource`). -/
theorem leak_casper_actions_filter (s : RewardStore) (cfg : DefaultSchemeConfig)
    (ptb esf : Nat) (cr : List (Nat × CasperRewardType)) :
    leak_casper_actions s cfg ptb esf cr =
      leak_casper_actions s cfg ptb esf
        (cr.filter (fun p => p.2 = CasperRewardType.NoExpectedSource)) := by
  induction cr with
  | nil => rfl
  | cons p rest ih =>
    by_cases hp : p.2 = CasperRewardType.NoExpectedSource
    · simp only [leak_casper_actions, List.flatMap_cons, List.filter_cons] at ih ⊢
      simp [hp, ih]
    · simp only [leak_casper_actions, List.flatMap_cons, List.filter_cons] at ih ⊢
      simp [hp, ih]

end Casper

/-- C3: in leak mode, a validator classified `NoExpectedSource` is debited
both `base_reward(v)` and `inactivity_penalty(v)` by
`default_scheme_rewards`, while the Casper block of the leak branch emits
nothing for `NoExpectedTarget` classifications (its contributions come from
`NoExpectedSource` entries alone). -/
theorem C3_leak_noExpectedSource_double_penalty (s : Casper.RewardStore)
    (br : List (Nat × Casper.BeaconRewardType))
    (cr : List (Nat × Casper.CasperRewardType)) (esf : Nat)
    (cfg : Casper.DefaultSchemeConfig) (v : Nat) (hesf : 4 < esf)
    (hv : (v, Casper.CasperRewardType.NoExpectedSource) ∈ cr) :
    ((v, Casper.RewardAction.Sub (Casper.base_reward s cfg
        (Casper.total_balance s (s.active_validators s.previous_epoch)) v)) ∈
      Casper.default_scheme_rewards s br cr esf cfg ∧
     (v, Casper.RewardAction.Sub (Casper.inactivity_penalty s cfg
        (Casper.total_balance s (s.active_validators s.previous_epoch)) esf v)) ∈
      Casper.default_scheme_rewards s br cr esf cfg) ∧
    ∀ (cr' : List (Nat × Casper.CasperRewardType)) (ptb' esf' : Nat),
      (∀ p ∈ cr', p.2 ≠ Casper.CasperRewardType.NoExpectedSource) →
      Casper.leak_casper_actions s cfg ptb' esf' cr' = [] := by
  have h4 : ¬ esf ≤ 4 := by omega
  constructor
  · have hmem := Casper.mem_leak_casper_of_noSource s cfg
      (Casper.total_balance s (s.active_validators s.previous_epoch)) esf v cr hv
    constructor <;>
    · simp only [Casper.default_scheme_rewards, h4, if_false, List.mem_append]
      tauto
  · intro cr' ptb' esf' hnone
    rw [Casper.leak_casper_actions_filter]
    have : cr'.filter (fun p => p.2 = Casper.CasperRewardType.NoExpectedSource) = [] := by
      rw [List.filter_eq_nil_iff]
      intro p hp
      simp [hnone p hp]
    rw [this]
    rfl

/-- Witness for C3 at a concrete one-entry classification list. -/
theorem C3_leak_noExpectedSource_double_penalty_witness :
    (7, Casper.RewardAction.Sub 0) ∈
      Casper.default_scheme_rewards ⟨[], 0, 0, fun _ => [], fun _ => 0⟩ []
        [(7, Casper.CasperRewardType.NoExpectedSource)] 5 ⟨1, 1, 1, 1⟩ := by
  have h := (C3_leak_noExpectedSource_double_penalty
    ⟨[], 0, 0, fun _ => [], fun _ => 0⟩ []
    [(7, Casper.CasperRewardType.NoExpectedSource)] 5 ⟨1, 1, 1, 1⟩ 7
    (by norm_num) (by simp)).1.1
  simpa [Casper.base_reward, Casper.total_balance, Casper.integer_sqrt,
    Casper.integer_sqrt_loop] using h

namespace Casper

/-- Validators absent from the pending `no_expected_head` list never
re-enter it: the loop only filters the list. -/
theorem beacon_loop_noHead_mono (prev : Nat) (atts : List Attestation) (v : Nat) :
    ∀ (noHead : List Nat) (acc : List (Nat × BeaconRewardType)), v ∉ noHead →
      v ∉ (beacon_rewards_loop prev atts noHead acc).1 := by
  induction atts with
  | nil =>
    intro noHead acc h
    simpa [beacon_rewards_loop] using h
  | cons a rest ih =>
    intro noHead acc h
    by_cases ht : a.target_epoch = prev
    · by_cases hc : a.is_slot_canon
      · simp only [beacon_rewards_loop, ht, hc, if_true]
        exact ih _ _ (fun hmem => h (List.mem_of_mem_filter hmem))
      · simp only [beacon_rewards_loop, ht, if_true] at ih ⊢
        rw [if_neg hc]
        exact ih _ _ h
    · simp only [beacon_rewards_loop, ht, if_false]
      exact ih _ _ h

/-- If the beacon loop records `(v, ExpectedHead)`, that entry was already
in the accumulator or `v` is absent from the final
`no_expected_head` list. -/
theorem beacon_loop_expectedHead (prev : Nat) (atts : List Attestation) (v : Nat) :
    ∀ (noHead : List Nat) (acc : List (Nat × BeaconRewardType)),
      (v, BeaconRewardType.ExpectedHead) ∈ (beacon_rewards_loop prev atts noHead acc).2 →
      (v, BeaconRewardType.ExpectedHead) ∈ acc ∨
        v ∉ (beacon_rewards_loop prev atts noHead acc).1 := by
  induction atts with
  | nil =>
    intro noHead acc h
    simp only [beacon_rewards_loop] at h ⊢
    exact Or.inl h
  | cons a rest ih =>
    intro noHead acc h
    by_cases ht : a.target_epoch = prev
    · by_cases hc : a.is_slot_canon
      · simp only [beacon_rewards_loop, ht, hc, if_true] at h ⊢
        rcases ih _ _ h with hacc | hout
        · rcases List.mem_append.mp hacc with hacc' | hlast
          · rcases List.mem_append.mp hacc' with hacc'' | hdist
            · exact Or.inl hacc''
            · simp at hdist
          · have hvid : v = a.validator_id := by
              simpa using hlast
            subst hvid
            refine Or.inr (beacon_loop_noHead_mono prev rest a.validator_id _ _ ?_)
            intro hmem
            have := List.of_mem_filter hmem
            simp at this
        · exact Or.inr hout
      · simp only [beacon_rewards_loop, ht, if_true] at h ⊢
        rw [if_neg hc] at h ⊢
        rcases ih _ _ h with hacc | hout
        · rcases List.mem_append.mp hacc with hacc' | hdist
          · exact Or.inl hacc'
          · simp at hdist
        · exact Or.inr hout
    · simp only [beacon_rewards_loop, ht, if_false] at h ⊢
      exact ih _ _ h

/-- The beacon loop never records `NoExpectedHead`: such entries can only
come from the initial accumulator. -/
theorem beacon_loop_noExpectedHead (prev : Nat) (atts : List Attestation) (v : Nat) :
    ∀ (noHead : List Nat) (acc : List (Nat × BeaconRewardType)),
      (v, BeaconRewardType.NoExpectedHead) ∈ (beacon_rewards_loop prev atts noHead acc).2 →
      (v, BeaconRewardType.NoExpectedHead) ∈ acc := by
  induction atts with
  | nil =>
    intro noHead acc h
    simpa [beacon_rewards_loop] using h
  | cons a rest ih =>
    intro noHead acc h
    by_cases ht : a.target_epoch = prev
    · by_cases hc : a.is_slot_canon
      · simp only [beacon_rewards_loop, ht, hc, if_true] at h
        have := ih _ _ h
        rcases List.mem_append.mp this with h' | hlast
        · rcases List.mem_append.mp h' with h'' | hdist
          · exact h''
          · simp at hdist
        · simp at hlast
      · simp only [beacon_rewards_loop, ht, if_true] at h
        rw [if_neg hc] at h
        have := ih _ _ h
        rcases List.mem_append.mp this with h' | hdist
        · exact h'
        · simp at hdist
    · simp only [beacon_rewards_loop, ht, if_false] at h
      exact ih _ _ h

/-- Validators absent from the pending `no_expected_source` list never
re-enter it. -/
theorem casper_loop_noSource_mono (pje : Nat) (atts : List Attestation) (v : Nat) :
    ∀ (noSource noTarget : List Nat) (acc : List (Nat × CasperRewardType)), v ∉ noSource →
      v ∉ (casper_rewards_loop pje atts noSource noTarget acc).1 := by
  induction atts with
  | nil =>
    intro noSource noTarget acc h
    simpa [casper_rewards_loop] using h
  | cons a rest ih =>
    intro noSource noTarget acc h
    by_cases hsrc : a.source_epoch = pje
    · by_cases hc : a.is_casper_canon
      · simp only [casper_rewards_loop, hsrc, hc, if_true]
        exact ih _ _ _ (fun hmem => h (List.mem_of_mem_filter hmem))
      · simp only [casper_rewards_loop, hsrc, if_true]
        rw [if_neg hc]
        exact ih _ _ _ (fun hmem => h (List.mem_of_mem_filter hmem))
    · simp only [casper_rewards_loop, hsrc, if_false]
      exact ih _ _ _ h

/-- Validators absent from the pending `no_expected_target` list never
re-enter it. -/
theorem casper_loop_noTarget_mono (pje : Nat) (atts : List Attestation) (v : Nat) :
    ∀ (noSource noTarget : List Nat) (acc : List (Nat × CasperRewardType)), v ∉ noTarget →
      v ∉ (casper_rewards_loop pje atts noSource noTarget acc).2.1 := by
  induction atts with
  | nil =>
    intro noSource noTarget acc h
    simpa [casper_rewards_loop] using h
  | cons a rest ih =>
    intro noSource noTarget acc h
    by_cases hsrc : a.source_epoch = pje
    · by_cases hc : a.is_casper_canon
      · simp only [casper_rewards_loop, hsrc, hc, if_true]
        exact ih _ _ _ (fun hmem => h (List.mem_of_mem_filter hmem))
      · simp only [casper_rewards_loop, hsrc, if_true]
        rw [if_neg hc]
        exact ih _ _ _ h
    · simp only [casper_rewards_loop, hsrc, if_false]
      exact ih _ _ _ h

/-- If the casper loop records `(v, ExpectedSource)`, that entry was
already in the accumulator or `v` is absent from the final
`no_expected_source` list. -/
theorem casper_loop_expectedSource (pje : Nat) (atts : List Attestation) (v : Nat) :
    ∀ (noSource noTarget : List Nat) (acc : List (Nat × CasperRewardType)),
      (v, CasperRewardType.ExpectedSource) ∈
        (casper_rewards_loop pje atts noSource noTarget acc).2.2 →
      (v, CasperRewardType.ExpectedSource) ∈ acc ∨
        v ∉ (casper_rewards_loop pje atts noSource noTarget acc).1 := by
  induction atts with
  | nil =>
    intro noSource noTarget acc h
    simp only [casper_rewards_loop] at h ⊢
    exact Or.inl h
  | cons a rest ih =>
    intro noSource noTarget acc h
    by_cases hsrc : a.source_epoch = pje
    · by_cases hc : a.is_casper_canon
      · simp only [casper_rewards_loop, hsrc, hc, if_true] at h ⊢
        rcases ih _ _ _ h with hacc | hout
        · rcases List.mem_append.mp hacc with hacc' | hlast
          · rcases List.mem_append.mp hacc' with hacc'' | hes
            · exact Or.inl hacc''
            · have hvid : v = a.validator_id := by simpa using hes
              subst hvid
              refine Or.inr (casper_loop_noSource_mono pje rest a.validator_id _ _ _ ?_)
              intro hmem
              have := List.of_mem_filter hmem
              simp at this
          · simp at hlast
        · exact Or.inr hout
      · simp only [casper_rewards_loop, hsrc, if_true] at h ⊢
        rw [if_neg hc] at h ⊢
        rcases ih _ _ _ h with hacc | hout
        · rcases List.mem_append.mp hacc with hacc' | hes
          · exact Or.inl hacc'
          · have hvid : v = a.validator_id := by simpa using hes
            subst hvid
            refine Or.inr (casper_loop_noSource_mono pje rest a.validator_id _ _ _ ?_)
            intro hmem
            have := List.of_mem_filter hmem
            simp at this
        · exact Or.inr hout
    · simp only [casper_rewards_loop, hsrc, if_false] at h ⊢
      exact ih _ _ _ h

/-- If the casper loop records `(v, ExpectedTarget)`, that entry was
already in the accumulator or `v` is absent from the final
`no_expected_target` list. -/
theorem casper_loop_expectedTarget (pje : Nat) (atts : List Attestation) (v : Nat) :
    ∀ (noSource noTarget : List Nat) (acc : List (Nat × CasperRewardType)),
      (v, CasperRewardType.ExpectedTarget) ∈
        (casper_rewards_loop pje atts noSource noTarget acc).2.2 →
      (v, CasperRewardType.ExpectedTarget) ∈ acc ∨
        v ∉ (casper_rewards_loop pje atts noSource noTarget acc).2.1 := by
  induction atts with
  | nil =>
    intro noSource noTarget acc h
    simp only [casper_rewards_loop] at h ⊢
    exact Or.inl h
  | cons a rest ih =>
    intro noSource noTarget acc h
    by_cases hsrc : a.source_epoch = pje
    · by_cases hc : a.is_casper_canon
      · simp only [casper_rewards_loop, hsrc, hc, if_true] at h ⊢
        rcases ih _ _ _ h with hacc | hout
        · rcases List.mem_append.mp hacc with hacc' | hlast
          · rcases List.mem_append.mp hacc' with hacc'' | hes
            · exact Or.inl hacc''
            · simp at hes
          · have hvid : v = a.validator_id := by simpa using hlast
            subst hvid
            refine Or.inr (casper_loop_noTarget_mono pje rest a.validator_id _ _ _ ?_)
            intro hmem
            have := List.of_mem_filter hmem
            simp at this
        · exact Or.inr hout
      · simp only [casper_rewards_loop, hsrc, if_true] at h ⊢
        rw [if_neg hc] at h ⊢
        rcases ih _ _ _ h with hacc | hout
        · rcases List.mem_append.mp hacc with hacc' | hes
          · exact Or.inl hacc'
          · simp at hes
        · exact Or.inr hout
    · simp only [casper_rewards_loop, hsrc, if_false] at h ⊢
      exact ih _ _ _ h

/-- The casper loop never records `NoExpectedSource` or `NoExpectedTarget`:
such entries can only come from the initial accumulator. -/
theorem casper_loop_no_entries (pje : Nat) (atts : List Attestation) (v : Nat)
    (c : CasperRewardType) (hc1 : c ≠ CasperRewardType.ExpectedSource)
    (hc2 : c ≠ CasperRewardType.ExpectedTarget) :
    ∀ (noSource noTarget : List Nat) (acc : List (Nat × CasperRewardType)),
      (v, c) ∈ (casper_rewards_loop pje atts noSource noTarget acc).2.2 →
      (v, c) ∈ acc := by
  induction atts with
  | nil =>
    intro noSource noTarget acc h
    simpa [casper_rewards_loop] using h
  | cons a rest ih =>
    intro noSource noTarget acc h
    by_cases hsrc : a.source_epoch = pje
    · by_cases hcanon : a.is_casper_canon
      · simp only [casper_rewards_loop, hsrc, hcanon, if_true] at h
        have := ih _ _ _ h
        rcases List.mem_append.mp this with h' | hlast
        · rcases List.mem_append.mp h' with h'' | hes
          · exact h''
          · have hes' : v = a.validator_id ∧ c = CasperRewardType.ExpectedSource := by
              simpa using hes
            exact absurd hes'.2 hc1
        · have hlast' : v = a.validator_id ∧ c = CasperRewardType.ExpectedTarget := by
            simpa using hlast
          exact absurd hlast'.2 hc2
      · simp only [casper_rewards_loop, hsrc, if_true] at h
        rw [if_neg hcanon] at h
        have := ih _ _ _ h
        rcases List.mem_append.mp this with h' | hes
        · exact h'
        · have hes' : v = a.validator_id ∧ c = CasperRewardType.ExpectedSource := by
            simpa using hes
          exact absurd hes'.2 hc1
    · simp only [casper_rewards_loop, hsrc, if_false] at h
      exact ih _ _ _ h

end Casper

namespace Casper

/-- Filtering out another validator's id does not change the number of
occurrences of `v`. -/
theorem count_filter_ne (v u : Nat) (l : List Nat) (h : u ≠ v) :
    (l.filter (fun w => w ≠ u)).count v = l.count v := by
  rw [List.count_filter]
  simp [Ne.symm h]

/-- Pair-tagging a list and keeping the pairs with first component `v`
yields one tagged copy of `v` per occurrence. -/
theorem filter_map_pair {α : Type} (l : List Nat) (v : Nat) (c : α) :
    ((l.map (fun w => (w, c))).filter (fun p => p.1 = v)) =
      List.replicate (l.count v) (v, c) := by
  induction l with
  | nil => rfl
  | cons w rest ih =>
    by_cases hw : w = v
    · subst hw
      simp [List.filter_cons, List.count_cons, List.replicate_succ, ih]
    · simp [List.filter_cons, List.count_cons, hw, Ne.symm hw, ih]

/-- When `v` attests nothing, the beacon loop keeps its occurrences in the
`no_expected_head` list and records nothing for it. -/
theorem beacon_loop_absent (prev : Nat) (atts : List Attestation) (v : Nat)
    (hatt : ∀ a ∈ atts, a.validator_id ≠ v) :
    ∀ (noHead : List Nat) (acc : List (Nat × BeaconRewardType)),
      (beacon_rewards_loop prev atts noHead acc).1.count v = noHead.count v ∧
      ((beacon_rewards_loop prev atts noHead acc).2.filter (fun p => p.1 = v)) =
        acc.filter (fun p => p.1 = v) := by
  induction atts with
  | nil =>
    intro noHead acc
    simp [beacon_rewards_loop]
  | cons a rest ih =>
    intro noHead acc
    have ha : a.validator_id ≠ v := hatt a (List.mem_cons_self a rest)
    have hrest : ∀ b ∈ rest, b.validator_id ≠ v := fun b hb => hatt b (List.mem_cons_of_mem a hb)
    by_cases ht : a.target_epoch = prev
    · by_cases hc : a.is_slot_canon
      · simp only [beacon_rewards_loop, ht, hc, if_true]
        refine ⟨?_, ?_⟩
        · rw [(ih hrest _ _).1, count_filter_ne v a.validator_id noHead ha]
        · rw [(ih hrest _ _).2]
          simp [List.filter_append, List.filter_cons, ha]
      · simp only [beacon_rewards_loop, ht, if_true]
        rw [if_neg hc]
        refine ⟨(ih hrest _ _).1, ?_⟩
        rw [(ih hrest _ _).2]
        simp [List.filter_append, List.filter_cons, ha]
    · simp only [beacon_rewards_loop, ht, if_false]
      exact ih hrest _ _

/-- When `v` attests nothing, the casper loop keeps its occurrences in
both pending lists and records nothing for it. -/
theorem casper_loop_absent (pje : Nat) (atts : List Attestation) (v : Nat)
    (hatt : ∀ a ∈ atts, a.validator_id ≠ v) :
    ∀ (noSource noTarget : List Nat) (acc : List (Nat × CasperRewardType)),
      (casper_rewards_loop pje atts noSource noTarget acc).1.count v = noSource.count v ∧
      (casper_rewards_loop pje atts noSource noTarget acc).2.1.count v = noTarget.count v ∧
      ((casper_rewards_loop pje atts noSource noTarget acc).2.2.filter (fun p => p.1 = v)) =
        acc.filter (fun p => p.1 = v) := by
  induction atts with
  | nil =>
    intro noSource noTarget acc
    simp [casper_rewards_loop]
  | cons a rest ih =>
    intro noSource noTarget acc
    have ha : a.validator_id ≠ v := hatt a (List.mem_cons_self a rest)
    have hrest : ∀ b ∈ rest, b.validator_id ≠ v := fun b hb => hatt b (List.mem_cons_of_mem a hb)
    by_cases hsrc : a.source_epoch = pje
    · by_cases hc : a.is_casper_canon
      · simp only [casper_rewards_loop, hsrc, hc, if_true]
        refine ⟨?_, ?_, ?_⟩
        · rw [(ih hrest _ _ _).1, count_filter_ne v a.validator_id noSource ha]
        · rw [(ih hrest _ _ _).2.1, count_filter_ne v a.validator_id noTarget ha]
        · rw [(ih hrest _ _ _).2.2]
          simp [List.filter_append, List.filter_cons, ha]
      · simp only [casper_rewards_loop, hsrc, if_true]
        rw [if_neg hc]
        refine ⟨?_, (ih hrest _ _ _).2.1, ?_⟩
        · rw [(ih hrest _ _ _).1, count_filter_ne v a.validator_id noSource ha]
        · rw [(ih hrest _ _ _).2.2]
          simp [List.filter_append, List.filter_cons, ha]
    · simp only [casper_rewards_loop, hsrc, if_false]
      exact ih hrest _ _ _

/-- A validator that attests nothing and occurs once among the active
validators of the store's epoch is classified exactly `NoExpectedHead`. -/
theorem beacon_rewards_filter_absent (st : RewardStore) (v : Nat)
    (hatt : ∀ a ∈ st.attestations, a.validator_id ≠ v)
    (hcount : (st.active_validators st.epoch).count v = 1) :
    (beacon_rewards st).filter (fun p => p.1 = v) =
      [(v, BeaconRewardType.NoExpectedHead)] := by
  have h := beacon_loop_absent st.previous_epoch st.attestations v hatt
    (st.active_validators st.epoch) []
  rw [beacon_rewards, List.filter_append, h.2, filter_map_pair, h.1, hcount]
  rfl

/-- A validator that attests nothing and occurs once among the active
validators of the context's epoch is classified exactly `NoExpectedSource`
then `NoExpectedTarget`. -/
theorem casper_rewards_filter_absent (ctx : CasperContext) (st : RewardStore) (v : Nat)
    (hatt : ∀ a ∈ st.attestations, a.validator_id ≠ v)
    (hcount : (st.active_validators ctx.epoch).count v = 1) :
    (casper_rewards ctx st).filter (fun p => p.1 = v) =
      [(v, CasperRewardType.NoExpectedSource), (v, CasperRewardType.NoExpectedTarget)] := by
  have h := casper_loop_absent ctx.previous_justified_epoch st.attestations v hatt
    (st.active_validators ctx.epoch) (st.active_validators ctx.epoch) []
  rw [casper_rewards, List.filter_append, List.filter_append, h.2.2, filter_map_pair,
    filter_map_pair, h.1, h.2.1, hcount]
  rfl

/-- Splitting `sub_total_for` over an append. -/
theorem sub_total_for_append (v : Nat) (A B : List (Nat × RewardAction)) :
    sub_total_for v (A ++ B) = sub_total_for v A + sub_total_for v B := by
  rw [sub_total_for, sub_total_for, sub_total_for, List.filterMap_append, List.sum_append]

/-- Actions recorded for other validators contribute nothing to
`sub_total_for v`. -/
theorem sub_total_for_eq_zero (v : Nat) (A : List (Nat × RewardAction))
    (h : ∀ q ∈ A, q.1 ≠ v) : sub_total_for v A = 0 := by
  induction A with
  | nil => rfl
  | cons q rest ih =>
    have hq : q.1 ≠ v := h q (List.mem_cons_self q rest)
    have hrest := fun p hp => h p (List.mem_cons_of_mem q hp)
    rcases q with ⟨w, act⟩
    cases act <;> simp [sub_total_for, List.filterMap_cons, hq, ih hrest] <;>
      rw [← sub_total_for, ih hrest]

/-- For a block that tags every emitted action with the classified
validator's id, `sub_total_for v` only depends on the classification
entries of `v`. -/
theorem sub_total_for_flatMap {α : Type} (v : Nat)
    (f : Nat × α → List (Nat × RewardAction)) (l : List (Nat × α))
    (hf : ∀ p q, q ∈ f p → q.1 = p.1) :
    sub_total_for v (l.flatMap f) =
      sub_total_for v ((l.filter (fun p => p.1 = v)).flatMap f) := by
  induction l with
  | nil => rfl
  | cons p rest ih =>
    rw [List.flatMap_cons, sub_total_for_append, ih]
    by_cases hp : p.1 = v
    · rw [List.filter_cons, if_pos (by simp [hp]), List.flatMap_cons, sub_total_for_append]
    · rw [List.filter_cons, if_neg (by simp [hp]),
        sub_total_for_eq_zero v (f p) (fun q hq => by rw [hf p q hq]; exact hp),
        Nat.zero_add]

/-- Pulling the head entry out of `sub_total_for`. -/
theorem sub_total_for_cons (v w : Nat) (act : RewardAction) (A : List (Nat × RewardAction)) :
    sub_total_for v ((w, act) :: A) =
      (if w = v then
        match act with
        | RewardAction.Sub x => x
        | RewardAction.Add _ => 0
      else 0) + sub_total_for v A := by
  by_cases hw : w = v
  · cases act <;> simp [sub_total_for, List.filterMap_cons, hw]
  · cases act <;> simp [sub_total_for, List.filterMap_cons, hw]

/-- Leak-branch head block total for a validator classified exactly
`NoExpectedHead`. -/
theorem sub_total_leak_head (s : RewardStore) (cfg : DefaultSchemeConfig)
    (ptb esf v : Nat) (br : List (Nat × BeaconRewardType))
    (hbr : br.filter (fun p => p.1 = v) = [(v, BeaconRewardType.NoExpectedHead)]) :
    sub_total_for v (leak_head_actions s cfg ptb esf br) =
      inactivity_penalty s cfg ptb esf v := by
  rw [leak_head_actions, sub_total_for_flatMap v _ br
    (fun p q hq => by
      by_cases h : p.2 = BeaconRewardType.NoExpectedHead <;> simp [h] at hq <;> simp [hq])]
  rw [hbr]
  simp [sub_total_for]

/-- Leak-branch inclusion block total for a validator classified exactly
`NoExpectedHead` (no inclusion-distance entry). -/
theorem sub_total_leak_inclusion (s : RewardStore) (cfg : DefaultSchemeConfig)
    (ptb v : Nat) (br : List (Nat × BeaconRewardType))
    (hbr : br.filter (fun p => p.1 = v) = [(v, BeaconRewardType.NoExpectedHead)]) :
    sub_total_for v (leak_inclusion_actions s cfg ptb br) = 0 := by
  rw [leak_inclusion_actions, sub_total_for_flatMap v _ br
    (fun p q hq => by cases h : p.2 <;> simp [h] at hq <;> simp [hq])]
  rw [hbr]
  simp [sub_total_for]

/-- Leak-branch Casper block total for a validator classified exactly
`NoExpectedSource` then `NoExpectedTarget`. -/
theorem sub_total_leak_casper (s : RewardStore) (cfg : DefaultSchemeConfig)
    (ptb esf v : Nat) (cr : List (Nat × CasperRewardType))
    (hcr : cr.filter (fun p => p.1 = v) =
      [(v, CasperRewardType.NoExpectedSource), (v, CasperRewardType.NoExpectedTarget)]) :
    sub_total_for v (leak_casper_actions s cfg ptb esf cr) =
      base_reward s cfg ptb v + inactivity_penalty s cfg ptb esf v := by
  rw [leak_casper_actions, sub_total_for_flatMap v _ cr
    (fun p q hq => by
      by_cases h : p.2 = CasperRewardType.NoExpectedSource <;> simp [h] at hq <;>
        rcases hq with hq | hq <;> simp [hq])]
  rw [hcr]
  simp [sub_total_for]

/-- Leak-branch punishment block total: one `2p + b` debit per occurrence
of the validator among the previous-epoch active validators. -/
theorem sub_total_leak_punish (s : RewardStore) (cfg : DefaultSchemeConfig)
    (ptb esf v : Nat) (pav : List Nat) :
    sub_total_for v (leak_punish_actions s cfg ptb esf pav) =
      pav.count v *
        (inactivity_penalty s cfg ptb esf v * 2 + base_reward s cfg ptb v) := by
  induction pav with
  | nil => simp [leak_punish_actions, sub_total_for]
  | cons w rest ih =>
    simp only [leak_punish_actions, List.map_cons] at ih ⊢
    rw [sub_total_for_cons, ih, List.count_cons]
    by_cases hw : w = v
    · subst hw
      simp [Nat.succ_mul]
      ring
    · simp [hw, Ne.symm hw]

end Casper

/-- C9: per class, the classification lists are exclusive — for no
validator does `beacon_rewards` contain both `(v, ExpectedHead)` and
`(v, NoExpectedHead)`, and for no validator does `casper_rewards` contain
both `(v, ExpectedSource)` and `(v, NoExpectedSource)`, or both
`(v, ExpectedTarget)` and `(v, NoExpectedTarget)`. -/
theorem C9_classification_exclusive (store : Casper.RewardStore)
    (ctx : Casper.CasperContext) (v : Nat) :
    ¬((v, Casper.BeaconRewardType.ExpectedHead) ∈ Casper.beacon_rewards store ∧
      (v, Casper.BeaconRewardType.NoExpectedHead) ∈ Casper.beacon_rewards store) ∧
    ¬((v, Casper.CasperRewardType.ExpectedSource) ∈ Casper.casper_rewards ctx store ∧
      (v, Casper.CasperRewardType.NoExpectedSource) ∈ Casper.casper_rewards ctx store) ∧
    ¬((v, Casper.CasperRewardType.ExpectedTarget) ∈ Casper.casper_rewards ctx store ∧
      (v, Casper.CasperRewardType.NoExpectedTarget) ∈ Casper.casper_rewards ctx store) := by
  refine ⟨?_, ?_, ?_⟩
  · rintro ⟨h1, h2⟩
    simp only [Casper.beacon_rewards, List.mem_append] at h1 h2
    have h1' : (v, Casper.BeaconRewardType.ExpectedHead) ∈
        (Casper.beacon_rewards_loop store.previous_epoch store.attestations
          (store.active_validators store.epoch) []).2 := by
      rcases h1 with h | h
      · exact h
      · rcases List.mem_map.mp h with ⟨w, _, hw⟩
        simp at hw
    have hout := Casper.beacon_loop_expectedHead store.previous_epoch store.attestations v
      (store.active_validators store.epoch) [] h1'
    rcases hout with habs | hout
    · simp at habs
    rcases h2 with h | h
    · have := Casper.beacon_loop_noExpectedHead store.previous_epoch store.attestations v
        (store.active_validators store.epoch) [] h
      simp at this
    · rcases List.mem_map.mp h with ⟨w, hwmem, hw⟩
      have hwv : w = v := (Prod.mk.injEq _ _ _ _).mp hw |>.1
      subst hwv
      exact hout hwmem
  · rintro ⟨h1, h2⟩
    simp only [Casper.casper_rewards, List.mem_append] at h1 h2
    have h1' : (v, Casper.CasperRewardType.ExpectedSource) ∈
        (Casper.casper_rewards_loop ctx.previous_justified_epoch store.attestations
          (store.active_validators ctx.epoch) (store.active_validators ctx.epoch) []).2.2 := by
      rcases h1 with (h | h) | h
      · exact h
      · rcases List.mem_map.mp h with ⟨w, _, hw⟩
        simp at hw
      · rcases List.mem_map.mp h with ⟨w, _, hw⟩
        simp at hw
    have hout := Casper.casper_loop_expectedSource ctx.previous_justified_epoch
      store.attestations v (store.active_validators ctx.epoch)
      (store.active_validators ctx.epoch) [] h1'
    rcases hout with habs | hout
    · simp at habs
    rcases h2 with (h | h) | h
    · have := Casper.casper_loop_no_entries ctx.previous_justified_epoch store.attestations v
        Casper.CasperRewardType.NoExpectedSource (by simp) (by simp)
        (store.active_validators ctx.epoch) (store.active_validators ctx.epoch) [] h
      simp at this
    · rcases List.mem_map.mp h with ⟨w, hwmem, hw⟩
      have hwv : w = v := (Prod.mk.injEq _ _ _ _).mp hw |>.1
      subst hwv
      exact hout hwmem
    · rcases List.mem_map.mp h with ⟨w, _, hw⟩
      simp at hw
  · rintro ⟨h1, h2⟩
    simp only [Casper.casper_rewards, List.mem_append] at h1 h2
    have h1' : (v, Casper.CasperRewardType.ExpectedTarget) ∈
        (Casper.casper_rewards_loop ctx.previous_justified_epoch store.attestations
          (store.active_validators ctx.epoch) (store.active_validators ctx.epoch) []).2.2 := by
      rcases h1 with (h | h) | h
      · exact h
      · rcases List.mem_map.mp h with ⟨w, _, hw⟩
        simp at hw
      · rcases List.mem_map.mp h with ⟨w, _, hw⟩
        simp at hw
    have hout := Casper.casper_loop_expectedTarget ctx.previous_justified_epoch
      store.attestations v (store.active_validators ctx.epoch)
      (store.active_validators ctx.epoch) [] h1'
    rcases hout with habs | hout
    · simp at habs
    rcases h2 with (h | h) | h
    · have := Casper.casper_loop_no_entries ctx.previous_justified_epoch store.attestations v
        Casper.CasperRewardType.NoExpectedTarget (by simp) (by simp)
        (store.active_validators ctx.epoch) (store.active_validators ctx.epoch) [] h
      simp at this
    · rcases List.mem_map.mp h with ⟨w, _, hw⟩
      simp at hw
    · rcases List.mem_map.mp h with ⟨w, hwmem, hw⟩
      have hwv : w = v := (Prod.mk.injEq _ _ _ _).mp hw |>.1
      subst hwv
      exact hout hwmem

/-- Witness for C9 at a concrete one-attestation store. -/
theorem C9_classification_exclusive_witness :
    ¬((0, Casper.BeaconRewardType.ExpectedHead) ∈
        Casper.beacon_rewards ⟨[⟨0, 0, 0, 0, true, true, 1⟩], 0, 0, fun _ => [0], fun _ => 1⟩ ∧
      (0, Casper.BeaconRewardType.NoExpectedHead) ∈
        Casper.beacon_rewards ⟨[⟨0, 0, 0, 0, true, true, 1⟩], 0, 0, fun _ => [0], fun _ => 1⟩) :=
  (C9_classification_exclusive ⟨[⟨0, 0, 0, 0, true, true, 1⟩], 0, 0, fun _ => [0], fun _ => 1⟩
    ⟨0, 0⟩ 0).1

/-- C2 counterexample: one validator with balance 100, active at every
epoch, attesting nothing, `epochs_since_finality = 5`,
`base_reward_quotient = 10` and `inactivity_penalty_quotient = 1`.  Then
`b = 100 / (integer_sqrt 100 / 10) / 5 = 20` and
`p = 20 + 100 * 5 / 1 / 2 = 270`; the claim predicts a per-epoch loss of
`3p + b = 830`, but the emitted `Sub` actions total
`p + (b + p) + (2p + b) = 1120`. -/
theorem C2_leak_mode_never_attests_counterexample :
    ¬ Casper.sub_total_for 0
        (Casper.default_scheme_rewards ⟨[], 0, 0, fun _ => [0], fun _ => 100⟩
          (Casper.beacon_rewards ⟨[], 0, 0, fun _ => [0], fun _ => 100⟩)
          (Casper.casper_rewards ⟨0, 0⟩ ⟨[], 0, 0, fun _ => [0], fun _ => 100⟩)
          5 ⟨10, 1, 1, 1⟩) = 830 := by
  have : Casper.sub_total_for 0
      (Casper.default_scheme_rewards ⟨[], 0, 0, fun _ => [0], fun _ => 100⟩
        (Casper.beacon_rewards ⟨[], 0, 0, fun _ => [0], fun _ => 100⟩)
        (Casper.casper_rewards ⟨0, 0⟩ ⟨[], 0, 0, fun _ => [0], fun _ => 100⟩)
        5 ⟨10, 1, 1, 1⟩) = 1120 := by
    simp [Casper.default_scheme_rewards, Casper.beacon_rewards,
      Casper.beacon_rewards_loop, Casper.casper_rewards, Casper.casper_rewards_loop,
      Casper.leak_head_actions, Casper.leak_inclusion_actions,
      Casper.leak_casper_actions, Casper.leak_punish_actions, Casper.sub_total_for,
      Casper.total_balance, Casper.base_reward, Casper.inactivity_penalty,
      Casper.integer_sqrt, Casper.integer_sqrt_loop]
  omega

/-- C2 (amended): in leak mode, an active validator that produced no
attestation at all loses, per epoch, `4p(v) + 2b(v)` in total over the
emitted `Sub` actions — `p` from `NoExpectedHead`, `b + p` from
`NoExpectedSource` (base debit plus the inactivity debit of the
double-tested source condition), and `2p + b` from the punish-all-active
block (amended from the claimed `3p + b`, which omits the
`NoExpectedSource` contributions). -/
theorem C2_leak_mode_never_attests_amended (st : Casper.RewardStore)
    (ctx : Casper.CasperContext) (cfg : Casper.DefaultSchemeConfig) (esf v : Nat)
    (hesf : 4 < esf)
    (hatt : ∀ a ∈ st.attestations, a.validator_id ≠ v)
    (hcur : (st.active_validators st.epoch).count v = 1)
    (hctx : (st.active_validators ctx.epoch).count v = 1)
    (hprev : (st.active_validators st.previous_epoch).count v = 1) :
    Casper.sub_total_for v
        (Casper.default_scheme_rewards st (Casper.beacon_rewards st)
          (Casper.casper_rewards ctx st) esf cfg) =
      4 * Casper.inactivity_penalty st cfg
          (Casper.total_balance st (st.active_validators st.previous_epoch)) esf v +
        2 * Casper.base_reward st cfg
          (Casper.total_balance st (st.active_validators st.previous_epoch)) v := by
  have h4 : ¬ esf ≤ 4 := by omega
  have hbr := Casper.beacon_rewards_filter_absent st v hatt hcur
  have hcr := Casper.casper_rewards_filter_absent ctx st v hatt hctx
  simp only [Casper.default_scheme_rewards, h4, if_false]
  rw [Casper.sub_total_for_append, Casper.sub_total_for_append,
    Casper.sub_total_for_append]
  rw [Casper.sub_total_leak_head st cfg _ esf v _ hbr,
    Casper.sub_total_leak_inclusion st cfg _ v _ hbr,
    Casper.sub_total_leak_casper st cfg _ esf v _ hcr,
    Casper.sub_total_leak_punish st cfg _ esf v _, hprev]
  omega

/-- Witness for C2 (amended) at the counterexample's concrete store:
the amended per-epoch loss evaluates to `4 * 270 + 2 * 20 = 1120`. -/
theorem C2_leak_mode_never_attests_amended_witness :
    Casper.sub_total_for 0
        (Casper.default_scheme_rewards ⟨[], 0, 0, fun _ => [0], fun _ => 100⟩
          (Casper.beacon_rewards ⟨[], 0, 0, fun _ => [0], fun _ => 100⟩)
          (Casper.casper_rewards ⟨0, 0⟩ ⟨[], 0, 0, fun _ => [0], fun _ => 100⟩)
          5 ⟨10, 1, 1, 1⟩) = 1120 := by
  have h := C2_leak_mode_never_attests_amended ⟨[], 0, 0, fun _ => [0], fun _ => 100⟩
    ⟨0, 0⟩ ⟨10, 1, 1, 1⟩ 5 0 (by norm_num) (by simp) (by simp) (by simp) (by simp)
  rw [h]
  simp [Casper.inactivity_penalty, Casper.base_reward, Casper.total_balance,
    Casper.integer_sqrt, Casper.integer_sqrt_loop]

/-- C1 counterexample: previous-epoch active validators 0 and 1 with
balances 100 and 50 (`B_tot = 150`, `integer_sqrt = 12`,
`base_reward_quotient = 12`, so `base_reward(0) = 20`); validator 0 is
classified `ExpectedHead` and validator 1 `NoExpectedHead`.  The balance of
the validators who attested correctly in the head class is 100, so the
claim predicts the credit `20 * 100 / 150 = 13` for validator 0 — but
`default_scheme_rewards` emits no such action (it credits
`20 * 150 / 150 = 20`, using the balance of all classified validators). -/
theorem C1_normal_mode_rewards_counterexample :
    (0, Casper.RewardAction.Add 13) ∉
      Casper.default_scheme_rewards
        ⟨[], 0, 0, fun _ => [0, 1], fun w => if w = 0 then 100 else 50⟩
        [(0, Casper.BeaconRewardType.ExpectedHead),
         (1, Casper.BeaconRewardType.NoExpectedHead)] [] 0 ⟨12, 1, 1, 1⟩ := by
  simp [Casper.default_scheme_rewards, Casper.normal_head_actions,
    Casper.normal_inclusion_actions, Casper.normal_source_actions,
    Casper.normal_target_actions, Casper.total_balance, Casper.base_reward,
    Casper.integer_sqrt, Casper.integer_sqrt_loop]

/-- C1 (amended): in normal mode (`epochs_since_finality ≤ 4`), for each
class `X` among expected-source, expected-target and expected-head,
`default_scheme_rewards` credits every validator classified correct in `X`
with `base_reward(v) * B_X / B_tot`, where `B_X` is the total balance of
ALL validators classified in class `X` — the correct attesters together
with the incorrect ones (amended from "who attested correctly", which the
counterexample refutes) — and `B_tot` is the previous-epoch total active
balance; every validator classified incorrect in `X` is debited
`base_reward(v)`; and every `InclusionDistance(d)` classification credits
`base_reward(v) / min_attestation_inclusion_delay / d`. -/
theorem C1_normal_mode_rewards_amended (s : Casper.RewardStore)
    (br : List (Nat × Casper.BeaconRewardType))
    (cr : List (Nat × Casper.CasperRewardType)) (esf : Nat)
    (cfg : Casper.DefaultSchemeConfig) (v d : Nat) (h4 : esf ≤ 4) :
    ((v, Casper.BeaconRewardType.ExpectedHead) ∈ br →
      (v, Casper.RewardAction.Add (Casper.base_reward s cfg
          (Casper.total_balance s (s.active_validators s.previous_epoch)) v *
        Casper.total_balance s ((br.filter (fun p =>
          p.2 = Casper.BeaconRewardType.ExpectedHead ∨
          p.2 = Casper.BeaconRewardType.NoExpectedHead)).map Prod.fst) /
        Casper.total_balance s (s.active_validators s.previous_epoch))) ∈
        Casper.default_scheme_rewards s br cr esf cfg) ∧
    ((v, Casper.BeaconRewardType.NoExpectedHead) ∈ br →
      (v, Casper.RewardAction.Sub (Casper.base_reward s cfg
          (Casper.total_balance s (s.active_validators s.previous_epoch)) v)) ∈
        Casper.default_scheme_rewards s br cr esf cfg) ∧
    ((v, Casper.BeaconRewardType.InclusionDistance d) ∈ br →
      (v, Casper.RewardAction.Add (Casper.base_reward s cfg
          (Casper.total_balance s (s.active_validators s.previous_epoch)) v /
        cfg.min_attestation_inclusion_delay / d)) ∈
        Casper.default_scheme_rewards s br cr esf cfg) ∧
    ((v, Casper.CasperRewardType.ExpectedSource) ∈ cr →
      (v, Casper.RewardAction.Add (Casper.base_reward s cfg
          (Casper.total_balance s (s.active_validators s.previous_epoch)) v *
        Casper.total_balance s ((cr.filter (fun p =>
          p.2 = Casper.CasperRewardType.ExpectedSource ∨
          p.2 = Casper.CasperRewardType.NoExpectedSource)).map Prod.fst) /
        Casper.total_balance s (s.active_validators s.previous_epoch))) ∈
        Casper.default_scheme_rewards s br cr esf cfg) ∧
    ((v, Casper.CasperRewardType.NoExpectedSource) ∈ cr →
      (v, Casper.RewardAction.Sub (Casper.base_reward s cfg
          (Casper.total_balance s (s.active_validators s.previous_epoch)) v)) ∈
        Casper.default_scheme_rewards s br cr esf cfg) ∧
    ((v, Casper.CasperRewardType.ExpectedTarget) ∈ cr →
      (v, Casper.RewardAction.Add (Casper.base_reward s cfg
          (Casper.total_balance s (s.active_validators s.previous_epoch)) v *
        Casper.total_balance s ((cr.filter (fun p =>
          p.2 = Casper.CasperRewardType.ExpectedTarget ∨
          p.2 = Casper.CasperRewardType.NoExpectedTarget)).map Prod.fst) /
        Casper.total_balance s (s.active_validators s.previous_epoch))) ∈
        Casper.default_scheme_rewards s br cr esf cfg) ∧
    ((v, Casper.CasperRewardType.NoExpectedTarget) ∈ cr →
      (v, Casper.RewardAction.Sub (Casper.base_reward s cfg
          (Casper.total_balance s (s.active_validators s.previous_epoch)) v)) ∈
        Casper.default_scheme_rewards s br cr esf cfg) := by
  refine ⟨?_, ?_, ?_, ?_, ?_, ?_, ?_⟩ <;> intro hmem <;>
    simp only [Casper.default_scheme_rewards, h4, if_true, List.mem_append]
  · exact Or.inl (Or.inl (Or.inl
      (List.mem_flatMap.mpr ⟨_, hmem, by simp [Casper.normal_head_actions]⟩)))
  · exact Or.inl (Or.inl (Or.inl
      (List.mem_flatMap.mpr ⟨_, hmem, by simp [Casper.normal_head_actions]⟩)))
  · exact Or.inl (Or.inl (Or.inr
      (List.mem_flatMap.mpr ⟨_, hmem, by simp [Casper.normal_inclusion_actions]⟩)))
  · exact Or.inl (Or.inr
      (List.mem_flatMap.mpr ⟨_, hmem, by simp [Casper.normal_source_actions]⟩))
  · exact Or.inl (Or.inr
      (List.mem_flatMap.mpr ⟨_, hmem, by simp [Casper.normal_source_actions]⟩))
  · exact Or.inr
      (List.mem_flatMap.mpr ⟨_, hmem, by simp [Casper.normal_target_actions]⟩)
  · exact Or.inr
      (List.mem_flatMap.mpr ⟨_, hmem, by simp [Casper.normal_target_actions]⟩)

/-- Witness for C1 (amended): the concrete head-class credit and debit at
the counterexample's store. -/
theorem C1_normal_mode_rewards_amended_witness :
    (0, Casper.RewardAction.Add 20) ∈
      Casper.default_scheme_rewards
        ⟨[], 0, 0, fun _ => [0, 1], fun w => if w = 0 then 100 else 50⟩
        [(0, Casper.BeaconRewardType.ExpectedHead),
         (1, Casper.BeaconRewardType.NoExpectedHead)] [] 0 ⟨12, 1, 1, 1⟩ ∧
    (1, Casper.RewardAction.Sub 10) ∈
      Casper.default_scheme_rewards
        ⟨[], 0, 0, fun _ => [0, 1], fun w => if w = 0 then 100 else 50⟩
        [(0, Casper.BeaconRewardType.ExpectedHead),
         (1, Casper.BeaconRewardType.NoExpectedHead)] [] 0 ⟨12, 1, 1, 1⟩ := by
  constructor
  · have h := (C1_normal_mode_rewards_amended
      ⟨[], 0, 0, fun _ => [0, 1], fun w => if w = 0 then 100 else 50⟩
      [(0, Casper.BeaconRewardType.ExpectedHead),
       (1, Casper.BeaconRewardType.NoExpectedHead)] [] 0 ⟨12, 1, 1, 1⟩ 0 0
      (by norm_num)).1 (by simp)
    simpa [Casper.base_reward, Casper.total_balance, Casper.integer_sqrt,
      Casper.integer_sqrt_loop] using h
  · have h := (C1_normal_mode_rewards_amended
      ⟨[], 0, 0, fun _ => [0, 1], fun w => if w = 0 then 100 else 50⟩
      [(0, Casper.BeaconRewardType.ExpectedHead),
       (1, Casper.BeaconRewardType.NoExpectedHead)] [] 0 ⟨12, 1, 1, 1⟩ 1 0
      (by norm_num)).2.1 (by simp)
    simpa [Casper.base_reward, Casper.total_balance, Casper.integer_sqrt,
      Casper.integer_sqrt_loop] using h

/-- C10: whenever `base_reward_quotient`, `min_attestation_inclusion_delay`,
`inactivity_penalty_quotient` and every reported inclusion distance are
nonzero, and `integer_sqrt` of the previous-epoch total active balance is at
least `base_reward_quotient`, every divisor used while computing
`default_scheme_rewards` is nonzero; and at an input violating the
precondition (a store with no validators, hence total active balance 0), a
divisor is zero. -/
theorem C10_default_scheme_divisors_nonzero :
    (∀ (s : Casper.RewardStore) (br : List (Nat × Casper.BeaconRewardType))
       (esf : Nat) (cfg : Casper.DefaultSchemeConfig),
      cfg.base_reward_quotient ≠ 0 →
      cfg.min_attestation_inclusion_delay ≠ 0 →
      cfg.inactivity_penalty_quotient ≠ 0 →
      (∀ p ∈ br, ∀ d, p.2 = Casper.BeaconRewardType.InclusionDistance d → d ≠ 0) →
      cfg.base_reward_quotient ≤
        Casper.integer_sqrt
          (Casper.total_balance s (s.active_validators s.previous_epoch)) →
      ∀ q ∈ Casper.default_scheme_divisors s br esf cfg, q ≠ 0) ∧
    (0 : Nat) ∈
      Casper.default_scheme_divisors ⟨[], 0, 0, fun _ => [], fun _ => 0⟩ [] 0
        ⟨1, 1, 1, 1⟩ := by
  constructor
  · intro s br esf cfg hbrq hmd hipq hd hsq q hq
    set ptb := Casper.total_balance s (s.active_validators s.previous_epoch) with hptb
    have hquot' : 0 < Casper.integer_sqrt ptb / cfg.base_reward_quotient :=
      Nat.div_pos hsq (Nat.pos_of_ne_zero hbrq)
    have hquot : Casper.integer_sqrt ptb / cfg.base_reward_quotient ≠ 0 := by omega
    have hptb0 : ptb ≠ 0 := by
      intro h0
      rw [h0, Casper.integer_sqrt_eq_sqrt] at hsq
      simp at hsq
      omega
    have hdist : ∀ d, d ∈ br.filterMap (fun p =>
        match p.2 with
        | Casper.BeaconRewardType.InclusionDistance d => some d
        | _ => none) → d ≠ 0 := by
      intro d hdm
      rcases List.mem_filterMap.mp hdm with ⟨p, hp, hfp⟩
      rcases p with ⟨w, rt⟩
      cases rt with
      | InclusionDistance d0 =>
        simp at hfp
        subst hfp
        exact hd _ hp d0 rfl
      | ExpectedHead => simp at hfp
      | NoExpectedHead => simp at hfp
    simp only [Casper.default_scheme_divisors, ← hptb] at hq
    by_cases h4 : esf ≤ 4
    · rw [if_pos h4] at hq
      simp only [List.mem_append, List.mem_cons, List.not_mem_nil, or_false] at hq
      rcases hq with ((h | h | h) | h | h) | h
      · subst h; exact hbrq
      · subst h; exact hquot
      · subst h; norm_num
      · subst h; exact hptb0
      · subst h; exact hmd
      · exact hdist q h
    · rw [if_neg h4] at hq
      simp only [List.mem_append, List.mem_cons, List.not_mem_nil, or_false] at hq
      rcases hq with ((h | h | h) | h | h) | h
      · subst h; exact hbrq
      · subst h; exact hquot
      · subst h; norm_num
      · subst h; exact hipq
      · subst h; norm_num
      · exact hdist q h
  · simp [Casper.default_scheme_divisors, Casper.total_balance]

/-- Witness for C10's universal part at a one-validator store with balance
1 and all quotients 1. -/
theorem C10_default_scheme_divisors_nonzero_witness :
    (0 : Nat) ∉
      Casper.default_scheme_divisors ⟨[], 0, 0, fun _ => [0], fun _ => 1⟩ [] 0
        ⟨1, 1, 1, 1⟩ :=
  fun h =>
    C10_default_scheme_divisors_nonzero.1 ⟨[], 0, 0, fun _ => [0], fun _ => 1⟩ [] 0
      ⟨1, 1, 1, 1⟩ (by decide) (by decide) (by decide) (by simp)
      (by simp [Casper.total_balance, Casper.integer_sqrt, Casper.integer_sqrt_loop])
      0 h rfl

/-- C8: `justified_block_id` returns `Ok(None)` exactly when the current
justified checkpoint root is the zero hash, returns `Ok(Some(root))` with
that exact root otherwise, and never returns an error. -/
theorem C8_justified_block_id (s : Blockchain.StateModel) :
    (Blockchain.justified_block_id s = Except.ok none ↔
      s.current_justified_checkpoint.root = Blockchain.zeroHash) ∧
    (s.current_justified_checkpoint.root ≠ Blockchain.zeroHash →
      Blockchain.justified_block_id s =
        Except.ok (some s.current_justified_checkpoint.root)) ∧
    (∃ r, Blockchain.justified_block_id s = Except.ok r) := by
  unfold Blockchain.justified_block_id
  by_cases h : s.current_justified_checkpoint.root = Blockchain.zeroHash <;>
    simp [h]

/-- Witness for C8 at a state whose justified root is 32 one-bytes. -/
theorem C8_justified_block_id_witness :
    Blockchain.justified_block_id ⟨⟨0, List.replicate 32 1⟩⟩ =
      Except.ok (some (List.replicate 32 1)) :=
  (C8_justified_block_id ⟨⟨0, List.replicate 32 1⟩⟩).2.1 (by decide)
